import Mathlib

/-!
Verification of the schema-driven extraction-to-storage pipeline of this
repository: the project-code allocator (`services/project_service.py`),
the semantic decomposers and graph synchronizer (`services/neo4j_service.py`),
the relational store (`db/sqlite_manager.py`) and the schema/policy registry
(`services/config_service.py`), shallowly embedded in Lean 4.

Conventions of the embedding:
* Python values flowing through the pipeline are modelled by `PyVal`
  (None / bool / int / str / list / dict); Python dicts are association
  lists with first-key-wins lookup and replace-first update, which agrees
  with Python dict semantics whenever keys are unique.
* `re.search` is modelled by an explicit leftmost scan; greedy quantifier
  plus mandatory literal tail is resolved by maximal-run-then-check, which
  coincides with backtracking semantics because the character classes
  involved are disjoint from the literal tails.
* Character classes are modelled over the repertoire that can reach them
  in this code base: `\d` / `[０-９0-9]` as ASCII and full-width digits,
  `\s` and `str.strip` as ASCII whitespace plus the ideographic space.
* The SQLite text column `raw_json` always holds `json.dumps` output of a
  dict (or NULL), and `json.loads` inverts `json.dumps`; the model
  therefore stores the parsed value directly in the column.
-/

/-- Model of the Python values handled by this code base. -/
inductive PyVal where
  | vNone : PyVal
  | vBool (b : Bool) : PyVal
  | vInt (n : Int) : PyVal
  | vStr (s : String) : PyVal
  | vList (xs : List PyVal) : PyVal
  | vDict (m : List (String × PyVal)) : PyVal

/-- A Python dict, as an association list (first binding wins). -/
abbrev Dict := List (String × PyVal)

/-- Python truthiness (`bool(v)`). -/
def pyTruthy : PyVal → Bool
  | .vNone => false
  | .vBool b => b
  | .vInt n => n != 0
  | .vStr s => s ≠ ""
  | .vList xs => !xs.isEmpty
  | .vDict m => !m.isEmpty

/-- `d.get(k)` on a dict: first binding of `k`, if any. -/
def dlook : Dict → String → Option PyVal
  | [], _ => none
  | (k', v) :: d, k => if k' = k then some v else dlook d k

/-- `d[k] = v` on a dict: replace the first binding of `k`, else append. -/
def dset : Dict → String → PyVal → Dict
  | [], k, v => [(k, v)]
  | (k', v') :: d, k, v => if k' = k then (k, v) :: d else (k', v') :: dset d k v

/-- `d.get(k)` where an absent key behaves like a NULL column / `None`. -/
def colOf (data : Dict) (k : String) : PyVal := (dlook data k).getD .vNone

/-- Python `x or y` restricted to the value positions used here. -/
def pyOr (v d : PyVal) : PyVal := if pyTruthy v then v else d

/-- `str(v)`; container reprs are abstracted since only scalar values are
ever stringified on the paths under verification. -/
def pyStr : PyVal → String
  | .vNone => "None"
  | .vBool b => if b then "True" else "False"
  | .vInt n => toString n
  | .vStr s => s
  | .vList _ => "<list>"
  | .vDict _ => "<dict>"

/-- Python whitespace (`\s`, `str.strip`) over the repertoire reaching this
code: ASCII whitespace and the ideographic space U+3000. -/
def isPySpace (c : Char) : Bool :=
  c.toNat = 32 || (9 ≤ c.toNat && c.toNat ≤ 13) || c.toNat = 12288

/-- `str.strip` on the character list. -/
def pyStripList (l : List Char) : List Char :=
  ((l.dropWhile isPySpace).reverse.dropWhile isPySpace).reverse

/-- `str.strip`. -/
def pyStrip (s : String) : String := ⟨pyStripList s.data⟩

/-! ### `neo4j_service._split_csv` -/

/-- The delimiter class `[,、\n]` of `_split_csv`. -/
def isCsvDelim (c : Char) : Bool := c = ',' || c = '、' || c = '\n'

/-- Prepend a character to the first token of a token list. -/
def consHead (c : Char) : List (List Char) → List (List Char)
  | [] => [[c]]
  | t :: ts => (c :: t) :: ts

/-- `re.split(r"[,、\n]+", s)`: split on maximal runs of delimiters,
keeping boundary empties (they are filtered later, as in the source). -/
def splitDelimRuns : List Char → List (List Char)
  | [] => [[]]
  | c :: rest =>
    if isCsvDelim c then [] :: splitDelimRuns (rest.dropWhile isCsvDelim)
    else consHead c (splitDelimRuns rest)
termination_by l => l.length
decreasing_by
  · simpa using Nat.lt_succ_of_le (List.dropWhile_sublist isCsvDelim).length_le
  · simp

/-- `neo4j_service._split_csv`: normalize a list, or a comma / ideographic
comma / newline delimited string, to a list of trimmed non-empty strings. -/
def split_csv (value : PyVal) : List String :=
  match value with
  | .vNone => []
  | .vList xs =>
    ((xs.map (fun item => pyStrip (pyStr item))).filter (fun s => s ≠ ""))
  | v =>
    let s := pyStrip (pyStr v)
    if s = "" then []
    else ((splitDelimRuns s.data).map (fun t => pyStrip ⟨t⟩)).filter (fun s => s ≠ "")

/-! ### Era-marker scanning (`project_service._extract_year_prefix`,
`neo4j_service._extract_fiscal_year`)

Both regexes have the shape `<m1><m2><digits+><literal tail>`.  Because a
digit never starts the tail, the greedy `+` with backtracking matches
exactly the maximal digit run followed by the tail. -/

/-- The digit class: `[０-９0-9]`, and the occurrences of `\d` in this code
base (restricted to ASCII and full-width digits, the repertoire that can
reach these functions). -/
def isEraDigit (c : Char) : Bool :=
  (48 ≤ c.toNat && c.toNat ≤ 57) || (65296 ≤ c.toNat && c.toNat ≤ 65305)

/-- One position of the scan for `<m1><m2>(digits+)<suf>`. -/
def matchMarkerAt (m1 m2 : Char) (suf : List Char) (cs : List Char) : Option (List Char) :=
  match cs with
  | a :: b :: rest =>
    if a = m1 ∧ b = m2 then
      let ds := rest.takeWhile isEraDigit
      if ds ≠ [] ∧ suf.isPrefixOf (rest.dropWhile isEraDigit) then some ds else none
    else none
  | _ => none

/-- `re.search` for `<m1><m2>(digits+)<suf>`: leftmost match, returning the
captured digit run. -/
def findMarker (m1 m2 : Char) (suf : List Char) : List Char → Option (List Char)
  | [] => none
  | c :: rest =>
    match matchMarkerAt m1 m2 suf (c :: rest) with
    | some ds => some ds
    | none => findMarker m1 m2 suf rest

/-- `str.translate(str.maketrans('０１２３４５６７８９', '0123456789'))`,
one character at a time. -/
def toHalfWidth (c : Char) : Char :=
  if c = '０' then '0' else if c = '１' then '1' else if c = '２' then '2'
  else if c = '３' then '3' else if c = '４' then '4' else if c = '５' then '5'
  else if c = '６' then '6' else if c = '７' then '7' else if c = '８' then '8'
  else if c = '９' then '9' else c

/-- `project_service._extract_year_prefix`: `令和<digits>年度` gives
`R<digits>` (digits half-width-normalized), else `平成<digits>年度` gives
`H<digits>`, else the fallback `"XX"`. -/
def extract_year_pfx (project_name : String) : String :=
  match findMarker '令' '和' ['年', '度'] project_name.data with
  | some ds => "R" ++ String.mk (ds.map toHalfWidth)
  | none =>
    match findMarker '平' '成' ['年', '度'] project_name.data with
    | some ds => "H" ++ String.mk (ds.map toHalfWidth)
    | none => "XX"

/-- Numeric value of a digit character (ASCII or full-width). -/
def pyDigitVal (c : Char) : Nat :=
  if 65296 ≤ c.toNat then c.toNat - 65296 else c.toNat - 48

/-- Python `int()` of a digit string (accepts full-width digits). -/
def intOfDigits (ds : List Char) : Nat :=
  ds.foldl (fun acc c => acc * 10 + pyDigitVal c) 0

/-- The separator class of the year-month pattern: slash or hyphen. -/
def sepYm (c : Char) : Bool := c = '/' || c = '-'

/-- One position of the scan for the year-month pattern `(\d{4})` then a
slash-or-hyphen separator then `(\d{1,2})`: four digits, a separator, then
one or (greedily) two digits. -/
def matchYmAt (cs : List Char) : Option (Nat × Nat) :=
  match cs with
  | d1 :: d2 :: d3 :: d4 :: c :: m1 :: rest =>
    if isEraDigit d1 ∧ isEraDigit d2 ∧ isEraDigit d3 ∧ isEraDigit d4
        ∧ sepYm c ∧ isEraDigit m1 then
      some (intOfDigits [d1, d2, d3, d4],
        match rest with
        | m2 :: _ => if isEraDigit m2 then intOfDigits [m1, m2] else pyDigitVal m1
        | [] => pyDigitVal m1)
    else none
  | _ => none

/-- `re.search` of the year-month pattern: leftmost match, returning
`(int(year), int(month))`. -/
def findYm : List Char → Option (Nat × Nat)
  | [] => none
  | c :: rest =>
    match matchYmAt (c :: rest) with
    | some ym => some ym
    | none => findYm rest

/-- `neo4j_service._extract_fiscal_year`: numeric year-month first
(month < 4 means the previous fiscal year), then `令和n年` (offset 2018),
then `平成n年` (offset 1988), else the empty string. -/
def extract_fiscal_year (start_date : String) : String :=
  if start_date = "" then ""
  else
    match findYm start_date.data with
    | some (y, m) => toString ((y : Int) - (if m < 4 then 1 else 0)) ++ "年度"
    | none =>
      match findMarker '令' '和' ['年'] start_date.data with
      | some ds => toString (2018 + intOfDigits ds) ++ "年度"
      | none =>
        match findMarker '平' '成' ['年'] start_date.data with
        | some ds => toString (1988 + intOfDigits ds) ++ "年度"
        | none => ""

/-! ### Region decomposition (`neo4j_service._extract_prefecture`,
`neo4j_service._extract_region_parts`) -/

/-- The suffix class `[都府県]`. -/
def isKen (c : Char) : Bool := c = '都' || c = '府' || c = '県'

/-- The suffix class `(?:市|区|町|村|郡)`. -/
def isCitySuffix (c : Char) : Bool :=
  c = '市' || c = '区' || c = '町' || c = '村' || c = '郡'

/-- The negated class `[^、,，\s]` of the city pattern. -/
def isRegionSep (c : Char) : Bool :=
  c = '、' || c = ',' || c = '，' || isPySpace c

/-- One position of the scan for `(北海道|.{2,3}[都府県])`: the literal
alternative first, then three (greedy) or two non-newline characters
followed by a `[都府県]` character.  The whole match is group 1. -/
def matchPrefectureAt (cs : List Char) : Option (List Char) :=
  if cs.take 3 = ['北', '海', '道'] then some ['北', '海', '道']
  else
    match cs with
    | a :: b :: c :: d :: _ =>
      if a ≠ '\n' ∧ b ≠ '\n' ∧ c ≠ '\n' ∧ isKen d then some [a, b, c, d]
      else if a ≠ '\n' ∧ b ≠ '\n' ∧ isKen c then some [a, b, c]
      else none
    | [a, b, c] =>
      if a ≠ '\n' ∧ b ≠ '\n' ∧ isKen c then some [a, b, c] else none
    | _ => none

/-- `re.search(r"(北海道|.{2,3}[都府県])", s)`: leftmost match. -/
def findPrefecture : List Char → Option (List Char)
  | [] => none
  | c :: rest =>
    match matchPrefectureAt (c :: rest) with
    | some t => some t
    | none => findPrefecture rest

/-- Longest prefix of `run` ending in a `[市区町村郡]` character: the value
group 1 of `[^、,，\s]*(?:市|区|町|村|郡)` captures out of the maximal
separator-free run (greedy star with backtracking picks the last suffix
character of the run). -/
def lastCitySuffixTake (run : List Char) : Option (List Char) :=
  let dropped := run.reverse.dropWhile (fun c => !isCitySuffix c)
  if dropped.isEmpty then none else some dropped.reverse

/-- One position of the scan for `[都府県]([^、,，\s]*(?:市|区|町|村|郡))`. -/
def matchCityAt : List Char → Option (List Char)
  | [] => none
  | c :: rest =>
    if isKen c then lastCitySuffixTake (rest.takeWhile (fun x => !isRegionSep x))
    else none

/-- `re.search(r"[都府県]([^、,，\s]*(?:市|区|町|村|郡))", s)`: leftmost
match, returning group 1. -/
def findCity : List Char → Option (List Char)
  | [] => none
  | c :: rest =>
    match matchCityAt (c :: rest) with
    | some t => some t
    | none => findCity rest

/-- `neo4j_service._extract_prefecture` (no strip in the source). -/
def extract_prefecture (location : String) : String :=
  if location = "" then ""
  else
    match findPrefecture location.data with
    | some t => String.mk t
    | none => ""

/-- `neo4j_service._extract_region_parts`: prefecture-level token first,
then the city token when it exists and differs from the prefecture. -/
def extract_region_parts (location : String) : List String :=
  if location = "" then []
  else
    let loc := pyStrip location
    let prefectureOpt := findPrefecture loc.data
    let parts : List String :=
      match prefectureOpt with
      | some t => [String.mk t]
      | none => []
    match findCity loc.data with
    | some ct =>
      let city := pyStrip (String.mk ct)
      if city != "" && (match prefectureOpt with
          | none => true
          | some t => city != String.mk t) then parts ++ [city]
      else parts
    | none => parts

/-! ### Relational store (`db/sqlite_manager.py`)

The `projects` table is modelled as a list of rows; a row is the dict that
`dict(sqlite3.Row)` produces (every column present, NULL as `vNone`).
`AUTOINCREMENT` ids are modelled as `length + 1` (the table is append-only
on the paths under verification).  The debug-log side effect of
`save_project` is not modelled. -/

/-- ASCII-case-insensitive folding of a code point, as SQLite `LIKE`
applies it. -/
def sqlLikeFold (n : Nat) : Nat := if 65 ≤ n ∧ n ≤ 90 then n + 32 else n

/-- SQLite `x LIKE '<q>%'` for a pattern that is a literal block `q`
followed by a single trailing `%`: ASCII-case-insensitive prefix match,
with `_` matching any one character.  The prefixes this code base passes
contain no wildcard characters (see `extract_year_pfx_no_wildcard`). -/
def likeQPercent : List Char → List Char → Bool
  | [], _ => true
  | _ :: _, [] => false
  | a :: q', c :: s' =>
    (a == '_' || sqlLikeFold a.toNat == sqlLikeFold c.toNat) && likeQPercent q' s'

/-- `sqlite_manager.get_project_count_by_year_prefix`:
`SELECT COUNT(*) FROM projects WHERE project_code LIKE '<pfx>-%'`. -/
def get_project_count_by_year_pfx (rows : List Dict) (pfx : String) : Nat :=
  rows.countP (fun r =>
    match dlook r "project_code" with
    | some (.vStr code) => likeQPercent (pfx ++ "-").data code.data
    | _ => false)

/-- `f"{seq:02d}"` for a non-negative value. -/
def pad2 (n : Nat) : String := if n < 10 then "0" ++ toString n else toString n

/-- `project_service._generate_project_code`: year prefix, then one plus
the stored count for that prefix, zero-padded to two digits. -/
def generate_project_code (project_name : String) (rows : List Dict) : String :=
  let pfx := extract_year_pfx project_name
  let seq := get_project_count_by_year_pfx rows pfx + 1
  pfx ++ "-" ++ pad2 seq

/-- The full-column row of `sqlite_manager.save_project` for the `fixed`
and `both` modes (`raw` is NULL for `fixed`, the raw map for `both`).
`work_types` / `engineers` columns hold `json.dumps(data.get(k) or [])`,
modelled by the parsed value. -/
def projectsRowFull (pk : Nat) (data : Dict) (ptype created : String) (raw : PyVal) : Dict :=
  [("id", .vInt pk), ("project_type", .vStr ptype),
   ("project_code", colOf data "project_code"), ("corins_id", colOf data "corins_id"),
   ("project_name", colOf data "project_name"),
   ("contract_amount", colOf data "contract_amount"),
   ("start_date", colOf data "start_date"), ("end_date", colOf data "end_date"),
   ("location", colOf data "location"), ("client_name", colOf data "client_name"),
   ("contractor_name", colOf data "contractor_name"), ("field", colOf data "field"),
   ("work_types", pyOr (colOf data "work_types") (.vList [])),
   ("engineers", pyOr (colOf data "engineers") (.vList [])),
   ("summary", colOf data "summary"), ("raw_json", raw),
   ("folder_path", colOf data "folder_path"), ("created_at", .vStr created),
   ("saved_to_neo4j", .vInt 0), ("saved_to_chroma", .vInt 0)]

/-- The minimal-column row of `sqlite_manager.save_project` for the `json`
mode: only type, code, folder path, raw map and timestamp; every other
column is NULL (the two flag columns default to 0). -/
def projectsRowJson (pk : Nat) (data : Dict) (ptype created : String) : Dict :=
  [("id", .vInt pk), ("project_type", .vStr ptype),
   ("project_code", colOf data "project_code"), ("corins_id", .vNone),
   ("project_name", .vNone), ("contract_amount", .vNone), ("start_date", .vNone),
   ("end_date", .vNone), ("location", .vNone), ("client_name", .vNone),
   ("contractor_name", .vNone), ("field", .vNone), ("work_types", .vNone),
   ("engineers", .vNone), ("summary", .vNone), ("raw_json", .vDict data),
   ("folder_path", colOf data "folder_path"), ("created_at", .vStr created),
   ("saved_to_neo4j", .vInt 0), ("saved_to_chroma", .vInt 0)]

/-- `sqlite_manager.save_project`: insert one row according to
`sqlite_mode` (`json` / `fixed` / anything else behaves as `both`) and
return the new id. -/
def save_project (rows : List Dict) (data : Dict) (project_type sqlite_mode created_at : String) :
    Nat × List Dict :=
  let pk := rows.length + 1
  let row :=
    if sqlite_mode = "json" then projectsRowJson pk data project_type created_at
    else if sqlite_mode = "fixed" then projectsRowFull pk data project_type created_at .vNone
    else projectsRowFull pk data project_type created_at (.vDict data)
  (pk, rows ++ [row])

/-- `d.get(k) is None`: key absent or bound to `None`. -/
def isNoneAt (d : Dict) (k : String) : Bool :=
  match dlook d k with
  | none => true
  | some .vNone => true
  | some _ => false

/-- The merge loop of `sqlite_manager._row_to_dict`: for each raw-map
entry whose key is neither `id` nor `created_at` and whose column is
NULL, copy the raw value into the dict. -/
def mergeRawInto (d : Dict) : Dict → Dict
  | [] => d
  | (k, v) :: m =>
    mergeRawInto (if k ≠ "id" ∧ k ≠ "created_at" ∧ isNoneAt d k then dset d k v else d) m

/-- `sqlite_manager._row_to_dict`.  The `json.loads` of the `work_types`
and `engineers` columns is the identity in this model (those columns hold
`json.dumps` output or NULL); a NULL or non-dict `raw_json` leaves the
dict unchanged, a dict-valued one is stored back and, when the
`project_name` column is empty and the map non-empty, merged. -/
def row_to_dict (d : Dict) : Dict :=
  match dlook d "raw_json" with
  | some (.vDict m) =>
    let d1 := dset d "raw_json" (.vDict m)
    if !pyTruthy ((dlook d1 "project_name").getD .vNone) && !m.isEmpty then
      mergeRawInto d1 m
    else d1
  | _ => d

/-- `sqlite_manager.get_project_by_id`. -/
def get_project_by_id (rows : List Dict) (id : Nat) : Option Dict :=
  (rows.find? (fun r =>
    match dlook r "id" with
    | some (.vInt n) => n == (id : Int)
    | _ => false)).map row_to_dict

/-! ### Schema / policy registry (`services/config_service.py`)

`data_sources.json` is modelled as a list of data-source records; the
durable read / write of the file is the input / output of each operation.
`uuid.uuid4()[:8]` is modelled as an explicit `newId` argument. -/

/-- One entry of `data_sources`; `dbSelection` is `none` when the stored
record has no `db_selection` key. -/
structure DataSource where
  id : String
  name : String
  file_type : String
  description : String
  schemaFields : List PyVal
  parserCfg : PyVal
  dbSelection : Option Dict

/-- `config_service.DEFAULT_DB_SELECTION`. -/
def DEFAULT_DB_SELECTION : Dict :=
  [("sqlite", .vBool true), ("chroma", .vBool false), ("neo4j", .vBool false),
   ("sqlite_mode", .vStr "both")]

/-- Python dict merge: every binding of `b` written over `a`, in order
(the last write wins, as in a double-star merge expression). -/
def dmerge (a : Dict) : Dict → Dict
  | [] => a
  | (k, v) :: b => dmerge (dset a k v) b

/-- The update branch of `config_service.save_data_source`: replace the
first source whose id matches, merging the default policy, the stored
policy and the supplied overrides in that order; `none` when no id
matches. -/
def updateSourceById (sid name file_type description : String) (schemaFields : List PyVal)
    (parser_config : PyVal) (dbSelArg : Option Dict) :
    List DataSource → Option (List DataSource)
  | [] => none
  | ds :: rest =>
    if ds.id = sid then
      some ({ id := sid, name := name, file_type := file_type,
              description := description, schemaFields := schemaFields,
              parserCfg := parser_config,
              dbSelection := some (dmerge
                (dmerge DEFAULT_DB_SELECTION (ds.dbSelection.getD []))
                (dbSelArg.getD [])) } :: rest)
    else
      (updateSourceById sid name file_type description schemaFields parser_config
        dbSelArg rest).map (ds :: ·)

/-- The create branch of `config_service.save_data_source`: a fresh record
whose policy is exactly a copy of the default (the `db_selection` argument
is not consulted). -/
def newSource (newId name file_type description : String) (schemaFields : List PyVal)
    (parser_config : PyVal) : DataSource :=
  { id := newId, name := name, file_type := file_type, description := description,
    schemaFields := schemaFields, parserCfg := parser_config,
    dbSelection := some DEFAULT_DB_SELECTION }

/-- `config_service.save_data_source`.  `globalParser` models
`data.get("parser", DEFAULT_PARSER)`; a falsy `source_id` (absent or
empty) or an unmatched id both reach the create branch. -/
def save_data_source (sources : List DataSource) (source_id : Option String)
    (name file_type description : String) (schemaFields : List PyVal)
    (parserArg : Option PyVal) (dbSelArg : Option Dict) (globalParser : PyVal)
    (newId : String) : String × List DataSource :=
  let parser_config := pyOr (parserArg.getD .vNone) globalParser
  let created :=
    (newId, sources ++ [newSource newId name file_type description schemaFields parser_config])
  match source_id with
  | some sid =>
    if sid ≠ "" then
      match updateSourceById sid name file_type description schemaFields parser_config
          dbSelArg sources with
      | some sources' => (sid, sources')
      | none => created
    else created
  | none => created

/-! ### Graph mirror (`services/neo4j_service.py`)

The graph store is a list of labelled nodes and directed edges.  A node is
keyed by the relational id (`Project`), by its name value (dimension
nodes) or by a fresh counter (`CREATE`d `DesignDocument` nodes); the key
property itself is carried by the key, not duplicated in `props`.  Each
`session.run` call is one statement; a failure oracle says which
statement raises (connection drop, constraint error, ...), in which case
the enclosing `try` turns the result into `False` and the graph keeps the
effects of the statements already completed.  A `none` statement marks a
point where the Python code itself raises inside the `try` block
(iterating a non-iterable `engineers` value).  Timestamp properties
(`datetime()`) are not modelled. -/

/-- Structural equality of Python values (the semantics of `=` on
parameters inside the Cypher `MERGE` patterns). -/
def pyBeq : PyVal → PyVal → Bool
  | .vNone, .vNone => true
  | .vBool a, .vBool b => a == b
  | .vInt a, .vInt b => a == b
  | .vStr a, .vStr b => a == b
  | .vList [], .vList [] => true
  | .vList (x :: xs), .vList (y :: ys) => pyBeq x y && pyBeq (.vList xs) (.vList ys)
  | .vDict [], .vDict [] => true
  | .vDict ((k, v) :: m), .vDict ((k', v') :: m') =>
    k == k' && pyBeq v v' && pyBeq (.vDict m) (.vDict m')
  | _, _ => false

/-- Node key: relational id, name value, or fresh id of a `CREATE`. -/
inductive NKey where
  | sidK (n : Int) : NKey
  | nameK (v : PyVal) : NKey
  | freshK (n : Nat) : NKey

/-- Key equality. -/
def nkeyBeq : NKey → NKey → Bool
  | .sidK a, .sidK b => a == b
  | .nameK a, .nameK b => pyBeq a b
  | .freshK a, .freshK b => a == b
  | _, _ => false

/-- A node reference: label and key. -/
abbrev NRef := String × NKey

/-- Reference equality. -/
def refBeq (a b : NRef) : Bool := a.1 == b.1 && nkeyBeq a.2 b.2

/-- A graph node. -/
structure GNode where
  label : String
  key : NKey
  props : Dict

/-- A directed edge with its relationship properties. -/
structure GEdge where
  src : NRef
  typ : String
  props : Dict
  dst : NRef

/-- Property-list equality. -/
def propsBeq : Dict → Dict → Bool
  | [], [] => true
  | (k, v) :: a, (k', v') :: b => k == k' && pyBeq v v' && propsBeq a b
  | _, _ => false

/-- Edge equality (`MERGE` on a relationship matches type, endpoints and
the properties written in the pattern). -/
def edgeBeq (a b : GEdge) : Bool :=
  refBeq a.src b.src && a.typ == b.typ && propsBeq a.props b.props && refBeq a.dst b.dst

/-- The graph store. -/
structure Graph where
  nodes : List GNode
  edges : List GEdge
  freshCtr : Nat

/-- Does a node with this label and key exist? -/
def nodeExists (g : Graph) (label : String) (key : NKey) : Bool :=
  g.nodes.any (fun n => n.label == label && nkeyBeq n.key key)

/-- `MATCH (p:Project {sqlite_id: $sid})` success. -/
def projectExists (g : Graph) (sid : Int) : Bool :=
  nodeExists g "Project" (.sidK sid)

/-- `MERGE` a node by label and key, then `SET` the given properties. -/
def mergeNode (g : Graph) (label : String) (key : NKey) (upd : Dict) : Graph :=
  if nodeExists g label key then
    { g with nodes := g.nodes.map (fun n =>
        if n.label == label && nkeyBeq n.key key then { n with props := dmerge n.props upd }
        else n) }
  else { g with nodes := g.nodes ++ [⟨label, key, upd⟩] }

/-- `MATCH` a node by label and key and `SET` properties (no creation). -/
def matchSetNode (g : Graph) (label : String) (key : NKey) (upd : Dict) : Graph :=
  { g with nodes := g.nodes.map (fun n =>
      if n.label == label && nkeyBeq n.key key then { n with props := dmerge n.props upd }
      else n) }

/-- `MERGE` an edge: append unless an equal edge exists. -/
def mergeEdge (g : Graph) (src : NRef) (typ : String) (props : Dict) (dst : NRef) : Graph :=
  let e : GEdge := ⟨src, typ, props, dst⟩
  if g.edges.any (edgeBeq e) then g else { g with edges := g.edges ++ [e] }

/-- One modelled `session.run`; `none` marks a Python-level raise. -/
abbrev GStmt := Option (Graph → Graph)

/-- Run the statements in order; the first raising statement (by the
oracle or a `none`) stops execution with a `False` result, keeping the
graph produced by the completed statements — the semantics of the
enclosing `try`. -/
def execStmts (oracle : Nat → Bool) : List GStmt → Nat → Graph → Bool × Graph
  | [], _, g => (true, g)
  | s :: rest, i, g =>
    match s with
    | none => (false, g)
    | some f => if oracle i then (false, g) else execStmts oracle rest (i + 1) (f g)

/-- `d.get(k, dflt)`. -/
def dgetD (d : Dict) (k : String) (dflt : PyVal) : PyVal := (dlook d k).getD dflt

/-- `neo4j_service._normalize_project_data`, the or-fallback for one key:
`data[k] = data.get(k) or project.get(k, "")`. -/
def orFromProject (data project : Dict) (k : String) : Dict :=
  dset data k (pyOr (colOf data k) (dgetD project k (.vStr "")))

/-- `neo4j_service._normalize_project_data`: when `raw_json` is a truthy
dict, flow the flattened row values into it (the row value wins only when
the raw value is falsy; `project_code` always comes from the row); any
other `raw_json` leaves the row as is (a non-dict value only arises from
an unparseable string, whose `json.loads` raises and is swallowed). -/
def normalize_project_data (project : Dict) : Dict :=
  match dlook project "raw_json" with
  | some (.vDict m) =>
    if m.isEmpty then project
    else
      let d1 := orFromProject m project "project_name"
      let d2 := dset d1 "project_code" (dgetD project "project_code" (.vStr ""))
      let d3 := orFromProject d2 project "client_name"
      let d4 := orFromProject d3 project "contractor_name"
      let d5 := orFromProject d4 project "location"
      let d6 := orFromProject d5 project "field"
      let d7 := orFromProject d6 project "start_date"
      orFromProject d7 project "end_date"
  | _ => project

/-- The first statement of `save_project_to_neo4j`: `MERGE` the Project
node and `SET` its scalar attributes (`json.dumps(data)` modelled by the
parsed map). -/
def stmtProject (sid : Int) (data project : Dict) : Graph → Graph :=
  fun g => mergeNode g "Project" (.sidK sid)
    [("name", dgetD data "project_name" (.vStr "")),
     ("project_code", pyOr (dgetD data "project_code" (.vStr ""))
        (dgetD project "project_code" (.vStr ""))),
     ("corins_id", dgetD data "corins_id" (.vStr "")),
     ("contract_amount", dgetD data "contract_amount" (.vStr "")),
     ("start_date", dgetD data "start_date" (.vStr "")),
     ("end_date", dgetD data "end_date" (.vStr "")),
     ("location", dgetD data "location" (.vStr "")),
     ("summary", dgetD data "summary" (.vStr "")),
     ("raw_json", .vDict data)]

/-- The recurring statement shape `MERGE` a dimension node by name, then
`MATCH` the Project and `MERGE` the edge to it (the edge is produced only
when the Project node exists, as the `MATCH` yields no row otherwise). -/
def stmtDim (sid : Int) (label : String) (nameVal : PyVal) (relTyp : String)
    (relProps : Dict) : Graph → Graph :=
  fun g =>
    let g1 := mergeNode g label (.nameK nameVal) []
    if projectExists g1 sid then
      mergeEdge g1 ("Project", .sidK sid) relTyp relProps (label, .nameK nameVal)
    else g1

/-- The `MANAGES` statement: `MERGE` Client and Region, edge Client to
Region. -/
def stmtManages (client : PyVal) (prefName : String) : Graph → Graph :=
  fun g =>
    let g1 := mergeNode g "Client" (.nameK client) []
    let g2 := mergeNode g1 "Region" (.nameK (.vStr prefName)) []
    mergeEdge g2 ("Client", .nameK client) "MANAGES" [] ("Region", .nameK (.vStr prefName))

/-- The `PART_OF` statement: `MERGE` both Region nodes and the edge city
to prefecture. -/
def stmtPartOf (prefName cityName : String) : Graph → Graph :=
  fun g =>
    let g1 := mergeNode g "Region" (.nameK (.vStr prefName)) []
    let g2 := mergeNode g1 "Region" (.nameK (.vStr cityName)) []
    mergeEdge g2 ("Region", .nameK (.vStr cityName)) "PART_OF" []
      ("Region", .nameK (.vStr prefName))

/-- The additional-properties statement on the Project node. -/
def stmtSetExtra (sid : Int) (data : Dict) : Graph → Graph :=
  fun g => matchSetNode g "Project" (.sidK sid)
    [("night_work", dgetD data "night_work" (.vStr "")),
     ("traffic_regulation", dgetD data "traffic_regulation" (.vStr "")),
     ("road_traffic_volume", dgetD data "road_traffic_volume" (.vStr "")),
     ("traffic_control_method", dgetD data "traffic_control_method" (.vStr "")),
     ("construction_area", dgetD data "construction_area" (.vStr "")),
     ("order_type", dgetD data "order_type" (.vStr "")),
     ("coordinates", pyOr (dgetD data "coordinates" (.vStr ""))
        (pyOr (dgetD data "start_location_coordinates" (.vStr ""))
          (dgetD data "end_location_coordinates" (.vStr "")))),
     ("construction_permit_number", dgetD data "construction_permit_number" (.vStr ""))]

/-- The contractor-details statement (`MATCH` + `SET`). -/
def stmtContractorProps (contractor : PyVal) (data : Dict) : Graph → Graph :=
  fun g => matchSetNode g "Contractor" (.nameK contractor)
    [("contractor_id", dgetD data "contractor_id" (.vStr "")),
     ("address", dgetD data "office_address" (.vStr "")),
     ("tel", dgetD data "office_tel" (.vStr "")),
     ("fax", dgetD data "office_fax" (.vStr "")),
     ("permit_number", dgetD data "construction_permit_number" (.vStr ""))]

/-- The client-details statement (`MATCH` + `SET`). -/
def stmtClientProps (client : PyVal) (data : Dict) : Graph → Graph :=
  fun g => matchSetNode g "Client" (.nameK client)
    [("address", dgetD data "ordering_agency_address" (.vStr "")),
     ("tel", dgetD data "ordering_agency_tel" (.vStr "")),
     ("postal_code", dgetD data "ordering_agency_postal_code" (.vStr ""))]

/-- Split a string at its first ASCII or full-width colon. -/
def splitColon1 : List Char → Option (List Char × List Char)
  | [] => none
  | c :: rest =>
    if c = ':' || c = '：' then some ([], rest)
    else (splitColon1 rest).map (fun ab => (c :: ab.1, ab.2))

/-- One engineer entry: a dict carries `name` / `role`; a string either
parses a `role: name` convention or is the bare name with the generic
role; anything else is skipped. -/
def engineerEntryStmts (sid : Int) (eng : PyVal) : List (Graph → Graph) :=
  match eng with
  | .vDict e =>
    let name := dgetD e "name" (.vStr "")
    let role := dgetD e "role" (.vStr "技術者")
    if pyTruthy name then [stmtDim sid "Engineer" name "HAS_ENGINEER" [("role", role)]]
    else []
  | .vStr s =>
    match splitColon1 s.data with
    | some ab =>
      let role := pyStrip ⟨ab.1⟩
      let name := pyStrip ⟨ab.2⟩
      if name ≠ "" then
        [stmtDim sid "Engineer" (.vStr name) "HAS_ENGINEER" [("role", .vStr role)]]
      else []
    | none =>
      if s ≠ "" then
        [stmtDim sid "Engineer" (.vStr s) "HAS_ENGINEER" [("role", .vStr "技術者")]]
      else []
  | _ => []

/-- The Python iterable view of the `engineers` value: a string is first
normalized by `_split_csv`, a dict iterates its keys, a non-iterable
value makes the `for` loop raise. -/
def engineersIterable : PyVal → Option (List PyVal)
  | .vStr s => some ((split_csv (.vStr s)).map .vStr)
  | .vList xs => some xs
  | .vDict m => some (m.map (fun kv => .vStr kv.1))
  | _ => none

/-- All engineer statements; a non-iterable `engineers` value is the one
Python-level raise of `save_project_to_neo4j`. -/
def engineerStmts (sid : Int) (data : Dict) : List GStmt :=
  match engineersIterable (dgetD data "engineers" (.vList [])) with
  | some entries => entries.flatMap (fun e => (engineerEntryStmts sid e).map some)
  | none => [none]

/-- The work-type list: `_split_csv` of the value, falling back to the
stringified entries of a native list whose items all strip to empty. -/
def workTypesList (data : Dict) : List String :=
  let wts := split_csv (dgetD data "work_types" (.vStr ""))
  if wts.isEmpty then
    match dlook data "work_types" with
    | some (.vList xs) => (xs.filter pyTruthy).map pyStr
    | _ => wts
  else wts

/-- The construction-method list: split a string, keep a native list,
anything else is empty. -/
def methodsList (data : Dict) : List String :=
  match dgetD data "construction_methods" (.vList []) with
  | .vStr s => split_csv (.vStr s)
  | .vList xs => xs.map pyStr
  | _ => []

/-- The statement sequence of `save_project_to_neo4j`, in source order. -/
def projectStmts (sid : Int) (data project : Dict) : List GStmt :=
  let client := dgetD data "client_name" (.vStr "")
  let contractor := dgetD data "contractor_name" (.vStr "")
  let locStr := pyStr (dgetD data "location" (.vStr ""))
  let regionParts := extract_region_parts locStr
  [some (stmtProject sid data project)]
  ++ (if pyTruthy client then
        [some (stmtDim sid "Client" client "ORDERED_BY" [])]
        ++ (let p := extract_prefecture locStr
            if p ≠ "" then [some (stmtManages client p)] else [])
      else [])
  ++ (if pyTruthy contractor then
        [some (stmtDim sid "Contractor" contractor "CONTRACTED_BY" [])] else [])
  ++ engineerStmts sid data
  ++ (workTypesList data).filterMap (fun wt =>
      if wt ≠ "" then some (some (stmtDim sid "WorkType" (.vStr wt) "HAS_WORK_TYPE" []))
      else none)
  ++ (let f := dgetD data "field" (.vStr "")
      if pyTruthy f then [some (stmtDim sid "Field" f "IN_FIELD" [])] else [])
  ++ regionParts.filterMap (fun rn =>
      if rn ≠ "" then some (some (stmtDim sid "Region" (.vStr rn) "LOCATED_IN" []))
      else none)
  ++ (match regionParts with
      | p0 :: p1 :: _ => [some (stmtPartOf p0 p1)]
      | _ => [])
  ++ (let fy := extract_fiscal_year (pyStr (dgetD data "start_date" (.vStr "")))
      if fy ≠ "" then [some (stmtDim sid "FiscalYear" (.vStr fy) "IN_FISCAL_YEAR" [])]
      else [])
  ++ (let rt := dgetD data "target_route_name" (.vStr "")
      if pyTruthy rt then [some (stmtDim sid "Route" rt "ON_ROUTE" [])] else [])
  ++ (let cm := dgetD data "contract_method" (.vStr "")
      if pyTruthy cm then [some (stmtDim sid "ContractMethod" cm "CONTRACTED_BY" [])]
      else [])
  ++ (let pt := dgetD data "construction_permit_type" (.vStr "")
      if pyTruthy pt then [some (stmtDim sid "PermitType" pt "REQUIRES_PERMIT" [])]
      else [])
  ++ (let bc := dgetD data "bid_qualification_category" (.vStr "")
      if pyTruthy bc then [some (stmtDim sid "BidCategory" bc "IN_BID_CATEGORY" [])]
      else [])
  ++ (let ca := dgetD data "construction_area" (.vStr "")
      if pyTruthy ca then [some (stmtDim sid "ConstructionArea" ca "IN_AREA_TYPE" [])]
      else [])
  ++ (methodsList data).filterMap (fun m =>
      if pyStrip m ≠ "" then
        some (some (stmtDim sid "ConstructionMethod" (.vStr (pyStrip m)) "USES_METHOD" []))
      else none)
  ++ [some (stmtSetExtra sid data)]
  ++ (if pyTruthy contractor then [some (stmtContractorProps contractor data)] else [])
  ++ (if pyTruthy client then [some (stmtClientProps client data)] else [])

/-- `neo4j_service.save_project_to_neo4j`: `False` without touching the
graph when the driver is unavailable or the row has no truthy integer id;
otherwise the statement sequence runs under the failure oracle and any
raise yields `False` with the partial effects kept. -/
def save_project_to_neo4j (driverOk : Bool) (oracle : Nat → Bool) (project : Dict)
    (g : Graph) : Bool × Graph :=
  if !driverOk then (false, g)
  else
    let data := normalize_project_data project
    match dlook project "id" with
    | some (.vInt n) =>
      if n == 0 then (false, g)
      else execStmts oracle (projectStmts n data project) 0 g
    | _ => (false, g)

/-- Does `needle` occur as a contiguous segment of `hay` (`in` on Python
strings)? -/
def listContainsSeg (needle : List Char) : List Char → Bool
  | [] => needle.isEmpty
  | c :: rest => needle.isPrefixOf (c :: rest) || listContainsSeg needle rest

/-- `kw in line` on strings. -/
def strContains (line kw : String) : Bool := listContainsSeg kw.data line.data

/-- The construction-method vocabulary of `save_design_doc_to_neo4j`. -/
def methodKeywords : List String :=
  ["工法", "施工", "打設", "転圧", "注入", "吹付", "切削", "オーバーレイ", "プレキャスト"]

/-- The regulation vocabulary of `save_design_doc_to_neo4j`. -/
def regKeywords : List String :=
  ["法", "規則", "基準", "指針", "告示", "条例", "省令", "通達", "要領"]

/-- The digit-comma-dot class of the material-quantity pattern. -/
def isDigitCommaDot (c : Char) : Bool := isEraDigit c || c = ',' || c = '.'

/-- The unit-letter class of the material-quantity pattern. -/
def isMatUnit (c : Char) : Bool :=
  (65 ≤ c.toNat && c.toNat ≤ 90) || (97 ≤ c.toNat && c.toNat ≤ 122)
  || c = 'ｍ' || c = '㎡' || c = '㎥' || c = 'ｔ'

/-- `re.sub` of the end-anchored quantity-and-unit pattern followed by
`strip`: drop a trailing unit run, whitespace run and a non-empty
digit-comma-dot run; without the digit run there is no match and the
string is unchanged. -/
def materialName (mat : String) : String :=
  let r := mat.data.reverse
  let r1 := r.dropWhile isMatUnit
  let r2 := r1.dropWhile isPySpace
  let r3 := r2.dropWhile isDigitCommaDot
  pyStrip (if r3.length = r2.length then mat else ⟨r3.reverse⟩)

/-- `quantities` as stored on the DesignDocument node: `json.dumps` for a
list or dict (modelled by the value itself), else `str` with default
empty. -/
def quantitiesProp : Option PyVal → PyVal
  | some (.vList xs) => .vList xs
  | some (.vDict m) => .vDict m
  | some v => .vStr (pyStr v)
  | none => .vStr ""

/-- The `CREATE (d:DesignDocument ...)` statement: a fresh node and the
`HAS_DESIGN_DOC` edge from the Project. -/
def stmtCreateDoc (pid : Int) (parsed : Dict) : Graph → Graph :=
  fun g =>
    if projectExists g pid then
      let props : Dict :=
        [("document_title", dgetD parsed "document_title" (.vStr "")),
         ("project_name", dgetD parsed "project_name" (.vStr "")),
         ("project_code", dgetD parsed "project_code" (.vStr "")),
         ("location", dgetD parsed "location" (.vStr "")),
         ("executing_office", dgetD parsed "executing_office" (.vStr "")),
         ("contract_days", dgetD parsed "contract_days" (.vStr "")),
         ("quantities", quantitiesProp (dlook parsed "quantities")),
         ("special_specs", dgetD parsed "special_specs" (.vStr "")),
         ("raw_json", .vDict parsed)]
      let g1 : Graph := { g with nodes := g.nodes ++ [⟨"DesignDocument", .freshK g.freshCtr, props⟩],
                                 freshCtr := g.freshCtr + 1 }
      mergeEdge g1 ("Project", .sidK pid) "HAS_DESIGN_DOC" []
        ("DesignDocument", .freshK g.freshCtr)
    else g

/-- The write statements of `save_design_doc_to_neo4j` after the
existence check, in source order. -/
def designDocStmts (pid : Int) (parsed : Dict) : List GStmt :=
  [some (stmtCreateDoc pid parsed)]
  ++ (let b := dgetD parsed "budget_category" (.vStr "")
      if pyTruthy b then [some (stmtDim pid "BudgetCategory" b "HAS_BUDGET_CATEGORY" [])]
      else [])
  ++ (split_csv (dgetD parsed "quantities" (.vStr ""))).filterMap (fun mat =>
      let mn := materialName mat
      if mn ≠ "" then some (some (stmtDim pid "Material" (.vStr mn) "USES_MATERIAL" []))
      else none)
  ++ (let sp := dgetD parsed "special_specs" (.vStr "")
      if pyTruthy sp then
        (split_csv (.vStr (match sp with | .vStr s => s | v => pyStr v))).flatMap (fun line =>
          (if methodKeywords.any (fun kw => strContains line kw) then
            [some (stmtDim pid "Method" (.vStr line) "USES_METHOD" [])] else [])
          ++ (if regKeywords.any (fun kw => strContains line kw) then
            [some (stmtDim pid "Regulation" (.vStr line) "REQUIRES_REGULATION" [])] else []))
      else [])

/-- `neo4j_service.save_design_doc_to_neo4j`: `False` when the driver is
unavailable, when the existence-check statement raises, or when the
Project node is absent — in each case the graph is untouched; otherwise
the writes run under the oracle. -/
def save_design_doc_to_neo4j (driverOk : Bool) (oracle : Nat → Bool) (parsed : Dict)
    (project_id : Int) (g : Graph) : Bool × Graph :=
  if !driverOk then (false, g)
  else if oracle 0 then (false, g)
  else if !projectExists g project_id then (false, g)
  else execStmts oracle (designDocStmts project_id parsed) 1 g

/-- The dimension labels scoped by the orphan garbage collection. -/
def dimLabels : List String :=
  ["Material", "Method", "Regulation", "WorkType", "BudgetCategory", "Field",
   "Region", "FiscalYear", "Client", "Contractor", "Engineer", "Route",
   "ContractMethod", "PermitType", "BidCategory", "ConstructionArea",
   "ConstructionMethod"]

/-- Is this reference an endpoint of the edge? -/
def incident (e : GEdge) (r : NRef) : Bool := refBeq e.src r || refBeq e.dst r

/-- Statement 1 of the delete: detach-delete every DesignDocument reached
from the Project by `HAS_DESIGN_DOC`. -/
def stmtDeleteDocs (sid : Int) (g : Graph) : Graph :=
  let pRef : NRef := ("Project", .sidK sid)
  let docKeys := g.edges.filterMap (fun e =>
    if refBeq e.src pRef && e.typ == "HAS_DESIGN_DOC" && e.dst.1 == "DesignDocument" then
      some e.dst
    else none)
  let doomed := fun (r : NRef) => docKeys.any (refBeq r)
  { g with nodes := g.nodes.filter (fun n => !doomed (n.label, n.key)),
           edges := g.edges.filter (fun e => !(doomed e.src || doomed e.dst)) }

/-- Statement 2 of the delete: detach-delete the Project node itself. -/
def stmtDeleteProject (sid : Int) (g : Graph) : Graph :=
  let pRef : NRef := ("Project", .sidK sid)
  { g with nodes := g.nodes.filter (fun n => !refBeq (n.label, n.key) pRef),
           edges := g.edges.filter (fun e => !incident e pRef) }

/-- Statement 3 of the delete: remove every relationship-free node whose
label is in the fixed dimension set. -/
def stmtGcOrphans (g : Graph) : Graph :=
  { g with nodes := g.nodes.filter (fun n =>
      !(dimLabels.contains n.label && !(g.edges.any (fun e => incident e (n.label, n.key))))) }

/-- `neo4j_service.delete_project_from_neo4j`. -/
def delete_project_from_neo4j (driverOk : Bool) (oracle : Nat → Bool) (project_id : Int)
    (g : Graph) : Bool × Graph :=
  if !driverOk then (false, g)
  else execStmts oracle
    [some (stmtDeleteDocs project_id), some (stmtDeleteProject project_id),
     some stmtGcOrphans] 0 g

/-! ### Claim-level predicates (used only to state the theorems) -/

/-- The claim-side reading of "the text contains `<m1><m2><year digits>`
followed by `suf`": some decomposition into prefix, the two marker
characters, a non-empty digit run and the literal tail. -/
def containsMarkerPattern (m1 m2 : Char) (suf : List Char) (s : String) : Prop :=
  ∃ pre ds post, s.data = pre ++ m1 :: m2 :: (ds ++ suf ++ post)
    ∧ ds ≠ [] ∧ ∀ c ∈ ds, isEraDigit c = true

/-- The claim-side reading of "the text contains a numeric year-month
pattern": four digits, a slash-or-hyphen, then one or two digits. -/
def containsYmPattern (s : String) : Prop :=
  ∃ pre ds c dm post, s.data = pre ++ ds ++ c :: (dm ++ post)
    ∧ ds.length = 4 ∧ (∀ x ∈ ds, isEraDigit x = true) ∧ sepYm c = true
    ∧ dm ≠ [] ∧ dm.length ≤ 2 ∧ ∀ x ∈ dm, isEraDigit x = true

/-- Lower-case ASCII letter (the only characters on which SQLite `LIKE`
differs from literal matching). -/
def isLowerAscii (c : Char) : Bool := 97 ≤ c.toNat && c.toNat ≤ 122

/-! ## Theorems -/

/-- Characters are determined by their code points. -/
theorem char_eq_of_toNat_eq {c1 c2 : Char} (h : c1.toNat = c2.toNat) : c1 = c2 :=
  Char.eq_of_val_eq (UInt32.ext h)

/-- `dropWhile` is idempotent. -/
theorem dropWhile_dropWhile (p : Char → Bool) (l : List Char) :
    (l.dropWhile p).dropWhile p = l.dropWhile p := by
  induction l with
  | nil => rfl
  | cons c rest ih =>
    by_cases h : p c <;> simp [List.dropWhile_cons, h, ih]

/-- `dropWhile` keeps a final element that fails the predicate. -/
theorem dropWhile_append_singleton (p : Char → Bool) (xs : List Char) (c : Char)
    (hc : p c = false) : ∃ ys, (xs ++ [c]).dropWhile p = ys ++ [c] := by
  induction xs with
  | nil => exact ⟨[], by simp [List.dropWhile_cons, hc]⟩
  | cons x xs ih =>
    by_cases h : p x
    · simpa [List.dropWhile_cons, h] using ih
    · exact ⟨x :: xs, by simp [List.dropWhile_cons, h]⟩

/-- `str.strip` is idempotent (list level). -/
theorem pyStripList_idem (l : List Char) : pyStripList (pyStripList l) = pyStripList l := by
  unfold pyStripList
  set A := l.dropWhile isPySpace with hA
  set R := (A.reverse.dropWhile isPySpace).reverse with hR
  have hRrev : R.reverse = A.reverse.dropWhile isPySpace := by simp [hR]
  have hdropR : R.dropWhile isPySpace = R := by
    cases hAe : A with
    | nil => simp [hR, hAe]
    | cons c t =>
      have hc : isPySpace c = false := by
        have := hAe ▸ hA
        have h2 : l.dropWhile isPySpace = c :: t := this.symm
        have := List.head_dropWhile_not isPySpace l (by simp [h2])
        simpa [h2] using this
      have : A.reverse = t.reverse ++ [c] := by simp [hAe]
      obtain ⟨ys, hys⟩ := dropWhile_append_singleton isPySpace t.reverse c hc
      have hRv : R = c :: ys.reverse := by
        rw [hR, this, hys]; simp
      rw [hRv]; simp [List.dropWhile_cons, hc]
  rw [hdropR, hRrev, dropWhile_dropWhile]

/-- `str.strip` is idempotent. -/
theorem pyStrip_idem (s : String) : pyStrip (pyStrip s) = pyStrip s := by
  cases s with
  | mk l => simp [pyStrip, pyStripList_idem]

/-- Claim C4: the list normalizer `_split_csv` maps `None` and
whitespace-only strings to the empty list, and every element it returns
(for any input value) is a non-empty, already-trimmed string; the
function is total, hence never throws. -/
theorem c4_split_csv_normalizer :
    split_csv PyVal.vNone = []
    ∧ (∀ s : String, pyStrip s = "" → split_csv (.vStr s) = [])
    ∧ (∀ v : PyVal, ∀ x ∈ split_csv v, x ≠ "" ∧ pyStrip x = x) := by
  refine ⟨rfl, ?_, ?_⟩
  · intro s h
    simp [split_csv, pyStr, h]
  · intro v x hx
    cases v with
    | vNone => simp [split_csv] at hx
    | vList xs =>
      simp only [split_csv, List.mem_filter, List.mem_map] at hx
      obtain ⟨⟨y, _, hy⟩, hne⟩ := hx
      refine ⟨by simpa using hne, ?_⟩
      rw [← hy]
      exact pyStrip_idem _
    | vBool b =>
      simp only [split_csv] at hx
      split at hx
      · simp at hx
      · simp only [List.mem_filter, List.mem_map] at hx
        obtain ⟨⟨t, _, ht⟩, hne⟩ := hx
        exact ⟨by simpa using hne, by rw [← ht]; exact pyStrip_idem _⟩
    | vInt n =>
      simp only [split_csv] at hx
      split at hx
      · simp at hx
      · simp only [List.mem_filter, List.mem_map] at hx
        obtain ⟨⟨t, _, ht⟩, hne⟩ := hx
        exact ⟨by simpa using hne, by rw [← ht]; exact pyStrip_idem _⟩
    | vStr s =>
      simp only [split_csv] at hx
      split at hx
      · simp at hx
      · simp only [List.mem_filter, List.mem_map] at hx
        obtain ⟨⟨t, _, ht⟩, hne⟩ := hx
        exact ⟨by simpa using hne, by rw [← ht]; exact pyStrip_idem _⟩
    | vDict m =>
      simp only [split_csv] at hx
      split at hx
      · simp at hx
      · simp only [List.mem_filter, List.mem_map] at hx
        obtain ⟨⟨t, _, ht⟩, hne⟩ := hx
        exact ⟨by simpa using hne, by rw [← ht]; exact pyStrip_idem _⟩

/-- Witness for C4 at concrete inputs. -/
theorem c4_witness :
    pyStrip " \n 、" ≠ "" ∧ pyStrip ",.,a" = ",.,a"
    ∧ (pyStrip "  \n " = "" ∧ split_csv (.vStr "  \n ") = []) := by
  refine ⟨by decide, by decide, by decide, ?_⟩
  exact c4_split_csv_normalizer.2.1 "  \n " (by decide)

/-- `takeWhile` passes over a block of satisfying elements. -/
theorem takeWhile_all_append (p : Char → Bool) (ds l : List Char)
    (h : ∀ c ∈ ds, p c = true) : (ds ++ l).takeWhile p = ds ++ l.takeWhile p := by
  induction ds with
  | nil => simp
  | cons c rest ih =>
    have hc := h c (by simp)
    simp only [List.cons_append, List.takeWhile_cons, hc, if_true]
    simpa using ih (fun x hx => h x (by simp [hx]))

/-- `dropWhile` consumes a block of satisfying elements. -/
theorem dropWhile_all_append (p : Char → Bool) (ds l : List Char)
    (h : ∀ c ∈ ds, p c = true) : (ds ++ l).dropWhile p = l.dropWhile p := by
  induction ds with
  | nil => simp
  | cons c rest ih =>
    have hc := h c (by simp)
    simp only [List.cons_append, List.dropWhile_cons, hc, if_true]
    exact ih (fun x hx => h x (by simp [hx]))

/-- Any successful position match yields a non-empty digit run. -/
theorem matchMarkerAt_some_props {m1 m2 : Char} {suf cs ds : List Char}
    (h : matchMarkerAt m1 m2 suf cs = some ds) :
    ds ≠ [] ∧ ∀ c ∈ ds, isEraDigit c = true := by
  match cs with
  | [] => simp [matchMarkerAt] at h
  | [a] => simp [matchMarkerAt] at h
  | a :: b :: rest =>
    simp only [matchMarkerAt] at h
    split at h
    · split at h
      · rename_i hcond
        obtain ⟨hne, _⟩ := hcond
        cases h
        exact ⟨hne, fun c hc => List.mem_takeWhile_imp hc⟩
      · exact absurd h (by simp)
    · exact absurd h (by simp)

/-- Soundness of the marker scan: a successful search decomposes the
input as prefix, marker, digit run, tail, suffix. -/
theorem findMarker_sound {m1 m2 : Char} {suf cs ds : List Char}
    (h : findMarker m1 m2 suf cs = some ds) :
    ∃ pre post, cs = pre ++ m1 :: m2 :: (ds ++ suf ++ post)
      ∧ ds ≠ [] ∧ ∀ c ∈ ds, isEraDigit c = true := by
  induction cs with
  | nil => simp [findMarker] at h
  | cons c rest ih =>
    rw [findMarker] at h
    cases hm : matchMarkerAt m1 m2 suf (c :: rest) with
    | some ds' =>
      rw [hm] at h
      cases h
      match rest, hm with
      | b :: rest2, hm =>
        simp only [matchMarkerAt] at hm
        split at hm
        · rename_i hab
          split at hm
          · rename_i hcond
            cases hm
            obtain ⟨hne, hpref⟩ := hcond
            obtain ⟨post, hpost⟩ := List.isPrefixOf_iff_prefix.mp hpref
            refine ⟨[], post, ?_, hne, fun x hx => List.mem_takeWhile_imp hx⟩
            have hsplit := List.takeWhile_append_dropWhile isEraDigit rest2
            have hdec : rest2 = List.takeWhile isEraDigit rest2 ++ suf ++ post := by
              conv_lhs => rw [← hsplit, ← hpost]
              simp
            simp only [List.nil_append, hab.1, hab.2, List.cons.injEq, true_and]
            exact hdec
          · exact absurd hm (by simp)
        · exact absurd hm (by simp)
      | [], hm => simp [matchMarkerAt] at hm
    | none =>
      rw [hm] at h
      obtain ⟨pre, post, hdec, hne, hdig⟩ := ih h
      exact ⟨c :: pre, post, by simp [hdec], hne, hdig⟩

/-- Completeness of the marker scan: when the input contains marker,
digit run and suffix (whose first character is not a digit), the search
succeeds, with a non-empty all-digit capture. -/
theorem findMarker_complete {m1 m2 s0 : Char} {suf' pre ds post : List Char}
    (hds : ds ≠ []) (hdig : ∀ c ∈ ds, isEraDigit c = true)
    (hs0 : isEraDigit s0 = false) :
    ∃ ds', findMarker m1 m2 (s0 :: suf')
        (pre ++ m1 :: m2 :: (ds ++ (s0 :: suf') ++ post)) = some ds'
      ∧ ds' ≠ [] ∧ ∀ c ∈ ds', isEraDigit c = true := by
  induction pre with
  | nil =>
    refine ⟨ds, ?_, hds, hdig⟩
    have hrest : (ds ++ (s0 :: suf') ++ post) = ds ++ ((s0 :: suf') ++ post) := by simp
    have htake : (ds ++ ((s0 :: suf') ++ post)).takeWhile isEraDigit = ds := by
      rw [takeWhile_all_append isEraDigit ds _ hdig]
      simp [List.takeWhile_cons, hs0]
    have hdrop : (ds ++ ((s0 :: suf') ++ post)).dropWhile isEraDigit = (s0 :: suf') ++ post := by
      rw [dropWhile_all_append isEraDigit ds _ hdig]
      simp [List.dropWhile_cons, hs0]
    have hpref : (s0 :: suf').isPrefixOf ((s0 :: suf') ++ post) = true :=
      List.isPrefixOf_iff_prefix.mpr (List.prefix_append _ _)
    simp only [List.nil_append, findMarker, matchMarkerAt, hrest, htake, hdrop]
    simp [hds, hpref]
  | cons c pre ih =>
    obtain ⟨ds', hfind, hne', hdig'⟩ := ih
    simp only [List.cons_append, findMarker]
    cases hm : matchMarkerAt m1 m2 (s0 :: suf')
        (c :: (pre ++ m1 :: m2 :: (ds ++ (s0 :: suf') ++ post))) with
    | some ds'' =>
      obtain ⟨hne'', hdig''⟩ := matchMarkerAt_some_props hm
      exact ⟨ds'', rfl, hne'', hdig''⟩
    | none => exact ⟨ds', hfind, hne', hdig'⟩

/-- Half-width normalization sends era digits to ASCII digits. -/
theorem toHalfWidth_digit {c : Char} (h : isEraDigit c = true) :
    48 ≤ (toHalfWidth c).toNat ∧ (toHalfWidth c).toNat ≤ 57 := by
  simp only [isEraDigit, Bool.or_eq_true, Bool.and_eq_true, decide_eq_true_eq] at h
  unfold toHalfWidth
  split_ifs with h0 h1 h2 h3 h4 h5 h6 h7 h8 h9
  · decide
  · decide
  · decide
  · decide
  · decide
  · decide
  · decide
  · decide
  · decide
  · decide
  · rcases h with h | h
    · exact h
    · exfalso
      have e0 : c.toNat ≠ 65296 := fun he => h0 (char_eq_of_toNat_eq (he.trans (by decide)))
      have e1 : c.toNat ≠ 65297 := fun he => h1 (char_eq_of_toNat_eq (he.trans (by decide)))
      have e2 : c.toNat ≠ 65298 := fun he => h2 (char_eq_of_toNat_eq (he.trans (by decide)))
      have e3 : c.toNat ≠ 65299 := fun he => h3 (char_eq_of_toNat_eq (he.trans (by decide)))
      have e4 : c.toNat ≠ 65300 := fun he => h4 (char_eq_of_toNat_eq (he.trans (by decide)))
      have e5 : c.toNat ≠ 65301 := fun he => h5 (char_eq_of_toNat_eq (he.trans (by decide)))
      have e6 : c.toNat ≠ 65302 := fun he => h6 (char_eq_of_toNat_eq (he.trans (by decide)))
      have e7 : c.toNat ≠ 65303 := fun he => h7 (char_eq_of_toNat_eq (he.trans (by decide)))
      have e8 : c.toNat ≠ 65304 := fun he => h8 (char_eq_of_toNat_eq (he.trans (by decide)))
      have e9 : c.toNat ≠ 65305 := fun he => h9 (char_eq_of_toNat_eq (he.trans (by decide)))
      omega

/-- Every character of a generated year prefix is an upper-case ASCII
letter or an ASCII digit. -/
theorem extract_year_pfx_chars (name : String) :
    ∀ c ∈ (extract_year_pfx name).data,
      (65 ≤ c.toNat ∧ c.toNat ≤ 90) ∨ (48 ≤ c.toNat ∧ c.toNat ≤ 57) := by
  intro c hc
  unfold extract_year_pfx at hc
  cases hR : findMarker '令' '和' ['年', '度'] name.data with
  | some ds =>
    rw [hR] at hc
    obtain ⟨_, _, _, _, hdig⟩ := findMarker_sound hR
    simp only [String.data_append, List.mem_append] at hc
    rcases hc with hc | hc
    · simp only [List.mem_singleton] at hc
      subst hc; left; decide
    · obtain ⟨d, hd, rfl⟩ := List.mem_map.mp hc
      exact Or.inr (toHalfWidth_digit (hdig d hd))
  | none =>
    rw [hR] at hc
    cases hH : findMarker '平' '成' ['年', '度'] name.data with
    | some ds =>
      rw [hH] at hc
      obtain ⟨_, _, _, _, hdig⟩ := findMarker_sound hH
      simp only [String.data_append, List.mem_append] at hc
      rcases hc with hc | hc
      · simp only [List.mem_singleton] at hc
        subst hc; left; decide
      · obtain ⟨d, hd, rfl⟩ := List.mem_map.mp hc
        exact Or.inr (toHalfWidth_digit (hdig d hd))
    | none =>
      rw [hH] at hc
      rw [show "XX".data = ['X', 'X'] from rfl] at hc
      have hx : c = 'X' := by
        rcases List.mem_cons.mp hc with h | h
        · exact h
        · simpa using h
      subst hx; left; decide

/-- SQLite case folding is injective away from lower-case ASCII. -/
theorem sqlLikeFold_inj {a b : Nat} (ha : ¬(97 ≤ a ∧ a ≤ 122)) (hb : ¬(97 ≤ b ∧ b ≤ 122)) :
    sqlLikeFold a = sqlLikeFold b ↔ a = b := by
  unfold sqlLikeFold
  split_ifs <;> omega

/-- On wildcard-free patterns and inputs without lower-case ASCII, the
`LIKE <q>%` match is exactly the literal prefix test. -/
theorem likeQPercent_iff_isPrefixOf (q : List Char) :
    ∀ s : List Char,
      (∀ c ∈ q, c ≠ '_' ∧ isLowerAscii c = false) →
      (∀ c ∈ s, isLowerAscii c = false) →
      likeQPercent q s = q.isPrefixOf s := by
  induction q with
  | nil => intro s _ _; simp [likeQPercent, List.isPrefixOf]
  | cons a q' ih =>
    intro s hq hs
    cases s with
    | nil => simp [likeQPercent, List.isPrefixOf]
    | cons c s' =>
      have ha := hq a (by simp)
      have haL : ¬(97 ≤ a.toNat ∧ a.toNat ≤ 122) := by
        have := ha.2
        simp only [isLowerAscii, Bool.and_eq_false_iff, decide_eq_false_iff_not] at this
        omega
      have hcL : ¬(97 ≤ c.toNat ∧ c.toNat ≤ 122) := by
        have := hs c (by simp)
        simp only [isLowerAscii, Bool.and_eq_false_iff, decide_eq_false_iff_not] at this
        omega
      have hrec := ih s' (fun x hx => hq x (by simp [hx])) (fun x hx => hs x (by simp [hx]))
      show ((a == '_' || sqlLikeFold a.toNat == sqlLikeFold c.toNat) && likeQPercent q' s')
          = (a :: q').isPrefixOf (c :: s')
      have hau : (a == '_') = false := by
        simp only [beq_eq_false_iff_ne, ne_eq]
        exact ha.1
      by_cases hac : a = c
      · subst hac
        simp [List.isPrefixOf, hrec]
      · have hfold : (sqlLikeFold a.toNat == sqlLikeFold c.toNat) = false := by
          simp only [beq_eq_false_iff_ne, ne_eq]
          intro hEq
          exact hac (char_eq_of_toNat_eq ((sqlLikeFold_inj haL hcL).mp hEq))
        simp [List.isPrefixOf, hau, hfold, hac]

/-- `LIKE <q>%` accepts anything that literally extends `q`. -/
theorem likeQPercent_self_append (q tail : List Char) :
    likeQPercent q (q ++ tail) = true := by
  induction q with
  | nil => rfl
  | cons a q' ih =>
    show ((a == '_' || sqlLikeFold a.toNat == sqlLikeFold a.toNat) && likeQPercent q' (q' ++ tail)) = true
    simp [ih]

/-- Claim C1, counterexample: the claim reads the era rule as "marker
followed by a year number", but the source regex also requires the
literal `年度` after the digits; a name with `令和４` and no `年度` falls
through to the fallback prefix instead of `R4`. -/
theorem c1_counterexample :
    extract_year_pfx "令和４ 舗装補修工事" = "XX"
    ∧ generate_project_code "令和４ 舗装補修工事" [] = "XX-01"
    ∧ ("R4-".data.isPrefixOf (generate_project_code "令和４ 舗装補修工事" []).data) = false := by
  refine ⟨by decide, by decide, by decide⟩

/-- Claim C1 (amended): for every project name the allocator returns
`<prefix>-<seq>` where `seq` is one plus the count of stored projects
whose code starts with `<prefix>-` (stored codes being free of lower-case
ASCII, as every generated code is), zero-padded to two digits; the prefix
is `R` + year for a `令和<year>年度` pattern (full-width digits
normalized), else `H` + year for a `平成<year>年度` pattern, else the
fallback `XX` — the claim's era rule holds only with the trailing `年度`
required by the source regex. -/
theorem c1_allocator_code_shape (name : String) (rows : List Dict)
    (hplain : ∀ r ∈ rows, ∀ code : String,
      dlook r "project_code" = some (.vStr code) →
      ∀ c ∈ code.data, isLowerAscii c = false) :
    generate_project_code name rows
      = extract_year_pfx name ++ "-"
        ++ pad2 (rows.countP (fun r =>
            match dlook r "project_code" with
            | some (.vStr code) => (extract_year_pfx name ++ "-").data.isPrefixOf code.data
            | _ => false) + 1)
    ∧ (containsMarkerPattern '令' '和' ['年', '度'] name →
        ∃ ds, ds ≠ [] ∧ (∀ c ∈ ds, isEraDigit c = true)
          ∧ extract_year_pfx name = "R" ++ String.mk (ds.map toHalfWidth))
    ∧ (¬ containsMarkerPattern '令' '和' ['年', '度'] name →
        containsMarkerPattern '平' '成' ['年', '度'] name →
        ∃ ds, ds ≠ [] ∧ (∀ c ∈ ds, isEraDigit c = true)
          ∧ extract_year_pfx name = "H" ++ String.mk (ds.map toHalfWidth))
    ∧ (¬ containsMarkerPattern '令' '和' ['年', '度'] name →
        ¬ containsMarkerPattern '平' '成' ['年', '度'] name →
        extract_year_pfx name = "XX") := by
  have hq : ∀ c ∈ (extract_year_pfx name ++ "-").data, c ≠ '_' ∧ isLowerAscii c = false := by
    intro c hc
    rw [String.data_append] at hc
    rcases List.mem_append.mp hc with h | h
    · have hr := extract_year_pfx_chars name c h
      constructor
      · intro he
        subst he
        rcases hr with h1 | h1 <;> revert h1 <;> decide
      · simp only [isLowerAscii, Bool.and_eq_false_iff, decide_eq_false_iff_not]
        omega
    · have hc' : c = '-' := by simpa using h
      subst hc'
      exact ⟨by decide, by decide⟩
  refine ⟨?_, ?_, ?_, ?_⟩
  · have hcount : rows.countP (fun r =>
        match dlook r "project_code" with
        | some (.vStr code) => likeQPercent (extract_year_pfx name ++ "-").data code.data
        | _ => false)
        = rows.countP (fun r =>
        match dlook r "project_code" with
        | some (.vStr code) => (extract_year_pfx name ++ "-").data.isPrefixOf code.data
        | _ => false) := by
      refine List.countP_congr ?_
      intro r hr
      cases hlook : dlook r "project_code" with
      | none => simp
      | some v =>
        cases v with
        | vStr code =>
          have hb := likeQPercent_iff_isPrefixOf _ code.data hq (hplain r hr code hlook)
          simp only [String.data_append, show "-".data = ['-'] from rfl] at hb
          simp [hb, List.isPrefixOf_iff_prefix]
        | vNone => simp
        | vBool b => simp
        | vInt n => simp
        | vList xs => simp
        | vDict m => simp
    simp only [generate_project_code, get_project_count_by_year_pfx]
    rw [hcount]
  · rintro ⟨pre, ds, post, hdec, hne, hdig⟩
    have hcomp := @findMarker_complete '令' '和' '年' ['度'] pre ds post hne hdig (by decide)
    rw [← hdec] at hcomp
    obtain ⟨ds', hfind, hne', hdig'⟩ := hcomp
    exact ⟨ds', hne', hdig', by simp [extract_year_pfx, hfind]⟩
  · intro hnotR hH
    have hRnone : findMarker '令' '和' ['年', '度'] name.data = none := by
      cases h : findMarker '令' '和' ['年', '度'] name.data with
      | none => rfl
      | some ds =>
        obtain ⟨pre, post, hdec, hne, hdig⟩ := findMarker_sound h
        exact absurd ⟨pre, ds, post, hdec, hne, hdig⟩ hnotR
    obtain ⟨pre, ds, post, hdec, hne, hdig⟩ := hH
    have hcomp := @findMarker_complete '平' '成' '年' ['度'] pre ds post hne hdig (by decide)
    rw [← hdec] at hcomp
    obtain ⟨ds', hfind, hne', hdig'⟩ := hcomp
    exact ⟨ds', hne', hdig', by simp [extract_year_pfx, hRnone, hfind]⟩
  · intro hnotR hnotH
    have hRnone : findMarker '令' '和' ['年', '度'] name.data = none := by
      cases h : findMarker '令' '和' ['年', '度'] name.data with
      | none => rfl
      | some ds =>
        obtain ⟨pre, post, hdec, hne, hdig⟩ := findMarker_sound h
        exact absurd ⟨pre, ds, post, hdec, hne, hdig⟩ hnotR
    have hHnone : findMarker '平' '成' ['年', '度'] name.data = none := by
      cases h : findMarker '平' '成' ['年', '度'] name.data with
      | none => rfl
      | some ds =>
        obtain ⟨pre, post, hdec, hne, hdig⟩ := findMarker_sound h
        exact absurd ⟨pre, ds, post, hdec, hne, hdig⟩ hnotH
    simp [extract_year_pfx, hRnone, hHnone]

/-- Witness for C1 at a concrete input. -/
theorem c1_witness :
    extract_year_pfx "令和４年度 舗装補修工事" = "R4"
    ∧ generate_project_code "令和４年度 舗装補修工事" [] = "R4-01" := by
  have h := (c1_allocator_code_shape "令和４年度 舗装補修工事" [] (by simp)).1
  refine ⟨by decide, ?_⟩
  rw [h]
  decide

/-- Whatever the mode, `save_project` appends one row whose
`project_code` column is the `project_code` of the saved data. -/
theorem save_project_row_code (rows : List Dict) (data : Dict) (ptype mode created : String) :
    ∃ row, (save_project rows data ptype mode created).2 = rows ++ [row]
      ∧ dlook row "project_code" = some (colOf data "project_code") := by
  by_cases h1 : mode = "json"
  · refine ⟨projectsRowJson (rows.length + 1) data ptype created, ?_, ?_⟩
    · simp [save_project, h1]
    · simp [projectsRowJson, dlook]
  · by_cases h2 : mode = "fixed"
    · refine ⟨projectsRowFull (rows.length + 1) data ptype created .vNone, ?_, ?_⟩
      · simp [save_project, h1, h2]
      · simp [projectsRowFull, dlook]
    · refine ⟨projectsRowFull (rows.length + 1) data ptype created (.vDict data), ?_, ?_⟩
      · simp [save_project, h1, h2]
      · simp [projectsRowFull, dlook]

/-- Claim C8: allocation is a pure function of the stored count for the
derived prefix (so two calls with no save in between agree), and a save
that records the first allocated code makes the next allocation for the
same name use the strictly next sequence number for the same prefix. -/
theorem c8_allocation_sequence (name : String) (rows : List Dict) (data : Dict)
    (ptype mode created : String)
    (hcode : dlook data "project_code" = some (.vStr (generate_project_code name rows))) :
    (∀ rows2 : List Dict,
        get_project_count_by_year_pfx rows2 (extract_year_pfx name)
          = get_project_count_by_year_pfx rows (extract_year_pfx name) →
        generate_project_code name rows2 = generate_project_code name rows)
    ∧ ∃ c : Nat,
        generate_project_code name rows
          = extract_year_pfx name ++ "-" ++ pad2 (c + 1)
        ∧ generate_project_code name (save_project rows data ptype mode created).2
          = extract_year_pfx name ++ "-" ++ pad2 (c + 2)
        ∧ c + 1 < c + 2 := by
  constructor
  · intro rows2 h
    simp [generate_project_code, h]
  · obtain ⟨row, hrows, hrowcode⟩ := save_project_row_code rows data ptype mode created
    refine ⟨get_project_count_by_year_pfx rows (extract_year_pfx name), rfl, ?_, by omega⟩
    have hval : dlook row "project_code"
        = some (.vStr (generate_project_code name rows)) := by
      rw [hrowcode, colOf, hcode]
      rfl
    have hlike : likeQPercent (extract_year_pfx name ++ "-").data
        (generate_project_code name rows).data = true := by
      have hshape : generate_project_code name rows
          = (extract_year_pfx name ++ "-")
            ++ pad2 (get_project_count_by_year_pfx rows (extract_year_pfx name) + 1) := by
        simp [generate_project_code, String.append_assoc]
      rw [hshape, String.data_append]
      exact likeQPercent_self_append _ _
    rw [String.data_append, show "-".data = ['-'] from rfl] at hlike
    have hcount : get_project_count_by_year_pfx (save_project rows data ptype mode created).2
        (extract_year_pfx name)
        = get_project_count_by_year_pfx rows (extract_year_pfx name) + 1 := by
      rw [hrows]
      unfold get_project_count_by_year_pfx
      rw [List.countP_append]
      have : List.countP (fun r =>
          match dlook r "project_code" with
          | some (.vStr code) => likeQPercent (extract_year_pfx name ++ "-").data code.data
          | _ => false) [row] = 1 := by
        simp only [List.countP_cons, List.countP_nil, hval]
        simp [hlike]
      rw [this]
    simp [generate_project_code, hcount]

/-- Witness for C8 at a concrete input. -/
theorem c8_witness :
    dlook [("project_code", PyVal.vStr "XX-01")] "project_code"
      = some (.vStr (generate_project_code "舗装補修工事" []))
    ∧ generate_project_code "舗装補修工事"
        (save_project [] [("project_code", PyVal.vStr "XX-01")] "past" "both" "t").2
      = "XX-02" := by
  obtain ⟨hsame, -⟩ := c8_allocation_sequence "舗装補修工事" []
    [("project_code", PyVal.vStr "XX-01")] "past" "both" "t" rfl
  exact ⟨rfl, by decide⟩

/-- Soundness of one year-month position match. -/
theorem matchYmAt_sound {cs : List Char} {y m : Nat} (h : matchYmAt cs = some (y, m)) :
    ∃ ds c dm post, cs = ds ++ c :: (dm ++ post)
      ∧ ds.length = 4 ∧ (∀ x ∈ ds, isEraDigit x = true) ∧ sepYm c = true
      ∧ dm ≠ [] ∧ dm.length ≤ 2 ∧ (∀ x ∈ dm, isEraDigit x = true)
      ∧ y = intOfDigits ds ∧ m = intOfDigits dm := by
  match cs with
  | [] => simp [matchYmAt] at h
  | [_] => simp [matchYmAt] at h
  | [_, _] => simp [matchYmAt] at h
  | [_, _, _] => simp [matchYmAt] at h
  | [_, _, _, _] => simp [matchYmAt] at h
  | [_, _, _, _, _] => simp [matchYmAt] at h
  | d1 :: d2 :: d3 :: d4 :: c :: m1 :: rest =>
    simp only [matchYmAt] at h
    split at h
    · rename_i hg
      obtain ⟨hg1, hg2, hg3, hg4, hgc, hgm⟩ := hg
      cases h
      match rest with
      | [] =>
        refine ⟨[d1, d2, d3, d4], c, [m1], [], by simp, rfl, ?_, hgc, by simp, by simp, ?_, rfl, ?_⟩
        · intro x hx
          simp only [List.mem_cons, List.not_mem_nil, or_false] at hx
          rcases hx with rfl | rfl | rfl | rfl <;> assumption
        · intro x hx
          simp only [List.mem_cons, List.not_mem_nil, or_false] at hx
          subst hx; assumption
        · simp [intOfDigits]
      | m2 :: rest2 =>
        by_cases hm2 : isEraDigit m2 = true
        · refine ⟨[d1, d2, d3, d4], c, [m1, m2], rest2, by simp, rfl, ?_, hgc,
            by simp, by simp, ?_, rfl, ?_⟩
          · intro x hx
            simp only [List.mem_cons, List.not_mem_nil, or_false] at hx
            rcases hx with rfl | rfl | rfl | rfl <;> assumption
          · intro x hx
            simp only [List.mem_cons, List.not_mem_nil, or_false] at hx
            rcases hx with rfl | rfl <;> assumption
          · simp [hm2]
        · refine ⟨[d1, d2, d3, d4], c, [m1], m2 :: rest2, by simp, rfl, ?_, hgc,
            by simp, by simp, ?_, rfl, ?_⟩
          · intro x hx
            simp only [List.mem_cons, List.not_mem_nil, or_false] at hx
            rcases hx with rfl | rfl | rfl | rfl <;> assumption
          · intro x hx
            simp only [List.mem_cons, List.not_mem_nil, or_false] at hx
            subst hx; assumption
          · simp [hm2, intOfDigits]
    · exact absurd h (by simp)

/-- Soundness of the year-month scan. -/
theorem findYm_sound {cs : List Char} {y m : Nat} (h : findYm cs = some (y, m)) :
    ∃ pre ds c dm post, cs = pre ++ ds ++ c :: (dm ++ post)
      ∧ ds.length = 4 ∧ (∀ x ∈ ds, isEraDigit x = true) ∧ sepYm c = true
      ∧ dm ≠ [] ∧ dm.length ≤ 2 ∧ (∀ x ∈ dm, isEraDigit x = true)
      ∧ y = intOfDigits ds ∧ m = intOfDigits dm := by
  induction cs with
  | nil => simp [findYm] at h
  | cons a rest ih =>
    rw [findYm] at h
    cases hm : matchYmAt (a :: rest) with
    | some ym =>
      rw [hm] at h
      cases h
      obtain ⟨ds, c, dm, post, hdec, h4, hdig, hsep, hne, hle, hdig2, hy, hmm⟩ :=
        matchYmAt_sound hm
      exact ⟨[], ds, c, dm, post, by simpa using hdec, h4, hdig, hsep, hne, hle, hdig2, hy, hmm⟩
    | none =>
      rw [hm] at h
      obtain ⟨pre, ds, c, dm, post, hdec, hrest⟩ := ih h
      exact ⟨a :: pre, ds, c, dm, post, by simp [hdec], hrest⟩

/-- Completeness of the year-month scan. -/
theorem findYm_complete {pre ds dm post : List Char} {c : Char}
    (hds4 : ds.length = 4) (hdsdig : ∀ x ∈ ds, isEraDigit x = true) (hc : sepYm c = true)
    (hdm : dm ≠ []) (hdmdig : ∀ x ∈ dm, isEraDigit x = true) :
    ∃ y m, findYm (pre ++ ds ++ c :: (dm ++ post)) = some (y, m) := by
  induction pre with
  | nil =>
    match ds, hds4 with
    | [d1, d2, d3, d4], _ =>
      match dm, hdm with
      | m1 :: dmrest, _ =>
        have h1 : isEraDigit d1 = true := hdsdig d1 (by simp)
        have h2 : isEraDigit d2 = true := hdsdig d2 (by simp)
        have h3 : isEraDigit d3 = true := hdsdig d3 (by simp)
        have h4 : isEraDigit d4 = true := hdsdig d4 (by simp)
        have hm1 : isEraDigit m1 = true := hdmdig m1 (by simp)
        simp only [List.nil_append, List.cons_append, List.append_assoc]
        rw [findYm]
        have : matchYmAt (d1 :: d2 :: d3 :: d4 :: c :: m1 :: (dmrest ++ post)) ≠ none := by
          simp [matchYmAt, h1, h2, h3, h4, hc, hm1]
        cases hmatch : matchYmAt (d1 :: d2 :: d3 :: d4 :: c :: m1 :: (dmrest ++ post)) with
        | none => exact absurd hmatch this
        | some ym => exact ⟨ym.1, ym.2, by simp⟩
  | cons a pre ih =>
    obtain ⟨y, m, hfind⟩ := ih
    simp only [List.cons_append]
    rw [findYm]
    cases hmatch : matchYmAt (a :: (pre ++ ds ++ c :: (dm ++ post))) with
    | some ym => exact ⟨ym.1, ym.2, rfl⟩
    | none => exact ⟨y, m, by simpa using hfind⟩

/-- Claim C2: for every date string the fiscal-year resolver first tries
the numeric year-month pattern and labels the calendar year (minus one
when the month is below four), else converts `令和n年` with offset 2018,
else `平成n年` with offset 1988, else returns the empty string. -/
theorem c2_fiscal_year_resolver (s : String) :
    (containsYmPattern s →
      ∃ pre ds c dm post, s.data = pre ++ ds ++ c :: (dm ++ post)
        ∧ ds.length = 4 ∧ (∀ x ∈ ds, isEraDigit x = true) ∧ sepYm c = true
        ∧ dm ≠ [] ∧ dm.length ≤ 2 ∧ (∀ x ∈ dm, isEraDigit x = true)
        ∧ extract_fiscal_year s
          = toString ((intOfDigits ds : Int) - (if intOfDigits dm < 4 then 1 else 0))
            ++ "年度")
    ∧ (¬ containsYmPattern s → containsMarkerPattern '令' '和' ['年'] s →
        ∃ ds, ds ≠ [] ∧ (∀ x ∈ ds, isEraDigit x = true)
          ∧ extract_fiscal_year s = toString (2018 + intOfDigits ds) ++ "年度")
    ∧ (¬ containsYmPattern s → ¬ containsMarkerPattern '令' '和' ['年'] s →
        containsMarkerPattern '平' '成' ['年'] s →
        ∃ ds, ds ≠ [] ∧ (∀ x ∈ ds, isEraDigit x = true)
          ∧ extract_fiscal_year s = toString (1988 + intOfDigits ds) ++ "年度")
    ∧ (¬ containsYmPattern s → ¬ containsMarkerPattern '令' '和' ['年'] s →
        ¬ containsMarkerPattern '平' '成' ['年'] s →
        extract_fiscal_year s = "") := by
  refine ⟨?_, ?_, ?_, ?_⟩
  · rintro ⟨pre, ds, c, dm, post, hdec, h4, hdig, hsep, hne, hle, hdig2⟩
    have hsne : s ≠ "" := by
      intro he
      subst he
      rw [show ("" : String).data = [] from rfl] at hdec
      exact absurd hdec.symm (by simp)
    obtain ⟨y, m, hfind⟩ := @findYm_complete pre ds dm post c h4 hdig hsep hne hdig2
    rw [← hdec] at hfind
    obtain ⟨pre', ds', c', dm', post', hdec', h4', hdig', hsep', hne', hle', hdig2', hy, hm⟩ :=
      findYm_sound hfind
    refine ⟨pre', ds', c', dm', post', hdec', h4', hdig', hsep', hne', hle', hdig2', ?_⟩
    rw [extract_fiscal_year, if_neg hsne, hfind, hy, hm]
  · intro hnotYm hpat
    have hYmNone : findYm s.data = none := by
      cases h : findYm s.data with
      | none => rfl
      | some ym =>
        obtain ⟨y1, m1⟩ := ym
        obtain ⟨pre, ds, c, dm, post, hdec, hrest⟩ := findYm_sound h
        exact absurd ⟨pre, ds, c, dm, post, hdec, hrest.1, hrest.2.1, hrest.2.2.1,
          hrest.2.2.2.1, hrest.2.2.2.2.1, hrest.2.2.2.2.2.1⟩ hnotYm
    obtain ⟨pre, ds, post, hdec, hne, hdig⟩ := hpat
    have hsne : s ≠ "" := by
      intro he
      subst he
      rw [show ("" : String).data = [] from rfl] at hdec
      exact absurd hdec.symm (by simp)
    have hcomp := @findMarker_complete '令' '和' '年' [] pre ds post hne hdig (by decide)
    rw [← hdec] at hcomp
    obtain ⟨ds', hfind, hne', hdig'⟩ := hcomp
    exact ⟨ds', hne', hdig', by rw [extract_fiscal_year, if_neg hsne, hYmNone, hfind]⟩
  · intro hnotYm hnotR hpat
    have hYmNone : findYm s.data = none := by
      cases h : findYm s.data with
      | none => rfl
      | some ym =>
        obtain ⟨y1, m1⟩ := ym
        obtain ⟨pre, ds, c, dm, post, hdec, hrest⟩ := findYm_sound h
        exact absurd ⟨pre, ds, c, dm, post, hdec, hrest.1, hrest.2.1, hrest.2.2.1,
          hrest.2.2.2.1, hrest.2.2.2.2.1, hrest.2.2.2.2.2.1⟩ hnotYm
    have hRnone : findMarker '令' '和' ['年'] s.data = none := by
      cases h : findMarker '令' '和' ['年'] s.data with
      | none => rfl
      | some ds =>
        obtain ⟨pre, post, hdec, hne, hdig⟩ := findMarker_sound h
        exact absurd ⟨pre, ds, post, hdec, hne, hdig⟩ hnotR
    obtain ⟨pre, ds, post, hdec, hne, hdig⟩ := hpat
    have hsne : s ≠ "" := by
      intro he
      subst he
      rw [show ("" : String).data = [] from rfl] at hdec
      exact absurd hdec.symm (by simp)
    have hcomp := @findMarker_complete '平' '成' '年' [] pre ds post hne hdig (by decide)
    rw [← hdec] at hcomp
    obtain ⟨ds', hfind, hne', hdig'⟩ := hcomp
    exact ⟨ds', hne', hdig',
      by rw [extract_fiscal_year, if_neg hsne, hYmNone, hRnone, hfind]⟩
  · intro hnotYm hnotR hnotH
    by_cases hsne : s = ""
    · subst hsne; rfl
    · have hYmNone : findYm s.data = none := by
        cases h : findYm s.data with
        | none => rfl
        | some ym =>
          obtain ⟨y1, m1⟩ := ym
          obtain ⟨pre, ds, c, dm, post, hdec, hrest⟩ := findYm_sound h
          exact absurd ⟨pre, ds, c, dm, post, hdec, hrest.1, hrest.2.1, hrest.2.2.1,
            hrest.2.2.2.1, hrest.2.2.2.2.1, hrest.2.2.2.2.2.1⟩ hnotYm
      have hRnone : findMarker '令' '和' ['年'] s.data = none := by
        cases h : findMarker '令' '和' ['年'] s.data with
        | none => rfl
        | some ds =>
          obtain ⟨pre, post, hdec, hne, hdig⟩ := findMarker_sound h
          exact absurd ⟨pre, ds, post, hdec, hne, hdig⟩ hnotR
      have hHnone : findMarker '平' '成' ['年'] s.data = none := by
        cases h : findMarker '平' '成' ['年'] s.data with
        | none => rfl
        | some ds =>
          obtain ⟨pre, post, hdec, hne, hdig⟩ := findMarker_sound h
          exact absurd ⟨pre, ds, post, hdec, hne, hdig⟩ hnotH
      rw [extract_fiscal_year, if_neg hsne, hYmNone, hRnone, hHnone]

/-- Witness for C2 at concrete inputs. -/
theorem c2_witness :
    containsYmPattern "2024-02-01"
    ∧ extract_fiscal_year "2024-02-01" = "2023年度"
    ∧ extract_fiscal_year "2024-05-01" = "2024年度"
    ∧ extract_fiscal_year "令和6年4月1日" = "2024年度"
    ∧ extract_fiscal_year "平成30年度" = "2018年度"
    ∧ extract_fiscal_year "unparseable" = "" := by
  have hpat : containsYmPattern "2024-02-01" :=
    ⟨[], ['2', '0', '2', '4'], '-', ['0', '2'], ['-', '0', '1'],
      by decide, by decide, by decide, by decide, by decide, by decide, by decide⟩
  have happ := (c2_fiscal_year_resolver "2024-02-01").1 hpat
  exact ⟨hpat, by decide, by decide, by decide, by decide, by decide⟩

/-- Claim C3, counterexample: on the claim's own schematic input
`X県Y市` (single-character `X`), the prefecture pattern — which needs two
or three characters before the suffix — does not match, yet the splitter
still returns the city token, so the output is neither the claimed
two-token list nor the claimed empty list. -/
theorem c3_counterexample :
    extract_region_parts "X県Y市" = ["Y市"]
    ∧ extract_region_parts "X県Y市" ≠ ["X県", "Y市"]
    ∧ findPrefecture "X県Y市".data = none := by
  refine ⟨by decide, by decide, by decide⟩

/-- `dropWhile` is the identity when no element satisfies the predicate. -/
theorem dropWhile_eq_self_of_all (p : Char → Bool) (l : List Char)
    (h : ∀ c ∈ l, p c = false) : l.dropWhile p = l := by
  cases l with
  | nil => rfl
  | cons c rest => simp [List.dropWhile_cons, h c (by simp)]

/-- `takeWhile` is the identity when every element satisfies the
predicate. -/
theorem takeWhile_eq_self_of_all (p : Char → Bool) (l : List Char)
    (h : ∀ c ∈ l, p c = true) : l.takeWhile p = l := by
  induction l with
  | nil => rfl
  | cons c rest ih =>
    simp only [List.takeWhile_cons, h c (by simp), if_true]
    rw [ih (fun x hx => h x (by simp [hx]))]

/-- `str.strip` is the identity on space-free strings (list level). -/
theorem pyStripList_noop (l : List Char) (h : ∀ c ∈ l, isPySpace c = false) :
    pyStripList l = l := by
  unfold pyStripList
  rw [dropWhile_eq_self_of_all _ _ h,
    dropWhile_eq_self_of_all _ _ (fun c hc => h c (List.mem_reverse.mp hc)),
    List.reverse_reverse]

/-- The city scan passes over suffix-free positions. -/
theorem findCity_skip (xs rest : List Char) (h : ∀ c ∈ xs, isKen c = false) :
    findCity (xs ++ rest) = findCity rest := by
  induction xs with
  | nil => rfl
  | cons c xs' ih =>
    rw [List.cons_append, findCity]
    have hc : isKen c = false := h c (by simp)
    simp only [matchCityAt, hc, Bool.false_eq_true, if_false]
    exact ih (fun x hx => h x (by simp [hx]))

/-- The prefecture pattern matches `<xs>県` at the head position when
`xs` has two or three newline-free characters, is not the literal
`北海道`, and is not followed by a suffix character. -/
theorem matchPrefectureAt_xKen (xs tail : List Char)
    (hlen : xs.length = 2 ∨ xs.length = 3)
    (hne3 : xs ≠ ['北', '海', '道'])
    (hxs : ∀ c ∈ xs, c ≠ '\n')
    (htail : ∀ c ∈ tail, isKen c = false) :
    matchPrefectureAt (xs ++ '県' :: tail) = some (xs ++ ['県']) := by
  match xs, hlen with
  | [a, b], _ =>
    have ha := hxs a (by simp)
    have hb := hxs b (by simp)
    cases tail with
    | nil =>
      simp only [matchPrefectureAt]
      rw [if_neg (by simp)]
      simp [ha, hb, isKen]
    | cons d tail' =>
      have hd : isKen d = false := htail d (by simp)
      simp only [isKen, Bool.or_eq_false_iff, decide_eq_false_iff_not] at hd
      simp only [matchPrefectureAt]
      rw [if_neg (by simp)]
      simp [ha, hb, isKen, hd.1.1, hd.1.2, hd.2]
  | [a, b, c], _ =>
    have ha := hxs a (by simp)
    have hb := hxs b (by simp)
    have hc := hxs c (by simp)
    simp only [matchPrefectureAt]
    rw [if_neg (by simpa using hne3)]
    simp [ha, hb, hc, isKen]

/-- Claim C3 (amended): the region splitter returns at most two tokens in
coarse-to-fine order and never throws; `X県Y市` yields
`["X県", "Y市"]` when `X` has two or three plain characters (the
prefecture pattern needs them) and `Y` is free of separators and suffix
markers; `X県` alone yields `["X県"]`; and the result is empty exactly
when neither the prefecture pattern nor the city pattern matches — a
city token alone can be returned for a string the prefecture pattern
does not match. -/
theorem c3_region_splitter :
    (∀ loc : String, (extract_region_parts loc).length ≤ 2)
    ∧ (∀ xs ys : List Char,
        (xs.length = 2 ∨ xs.length = 3) →
        xs ≠ ['北', '海', '道'] →
        (∀ c ∈ xs, c ≠ '\n' ∧ isKen c = false ∧ isRegionSep c = false) →
        (∀ c ∈ ys, isKen c = false ∧ isRegionSep c = false) →
        extract_region_parts ⟨xs ++ '県' :: (ys ++ ['市'])⟩
          = [⟨xs ++ ['県']⟩, ⟨ys ++ ['市']⟩])
    ∧ (∀ xs : List Char,
        (xs.length = 2 ∨ xs.length = 3) →
        xs ≠ ['北', '海', '道'] →
        (∀ c ∈ xs, c ≠ '\n' ∧ isKen c = false ∧ isRegionSep c = false) →
        extract_region_parts ⟨xs ++ ['県']⟩ = [⟨xs ++ ['県']⟩])
    ∧ (∀ loc : String,
        findPrefecture (pyStrip loc).data = none →
        findCity (pyStrip loc).data = none →
        extract_region_parts loc = []) := by
  refine ⟨?_, ?_, ?_, ?_⟩
  · intro loc
    unfold extract_region_parts
    by_cases h0 : loc = ""
    · simp [h0]
    · simp only [h0, if_false]
      rcases hfp : findPrefecture (pyStrip loc).data with _ | t <;>
        rcases hfc : findCity (pyStrip loc).data with _ | ct <;>
        simp only [hfp, hfc] <;> (try split) <;> simp
  · intro xs ys hlen hne3 hxs hys
    rcases xs with - | ⟨a, xs'⟩
    · simp at hlen
    set xs := a :: xs' with hxsdef
    have hxsn : ∀ c ∈ xs, c ≠ '\n' := fun c hc => (hxs c hc).1
    have hxsk : ∀ c ∈ xs, isKen c = false := fun c hc => (hxs c hc).2.1
    have hall : ∀ c ∈ xs ++ '県' :: (ys ++ ['市']), isPySpace c = false := by
      intro c hc
      rcases List.mem_append.mp hc with h | h
      · have := (hxs c h).2.2
        simp only [isRegionSep, Bool.or_eq_false_iff] at this
        exact this.2
      · rcases List.mem_cons.mp h with rfl | h
        · decide
        · rcases List.mem_append.mp h with h | h
          · have := (hys c h).2
            simp only [isRegionSep, Bool.or_eq_false_iff] at this
            exact this.2
          · have : c = '市' := by simpa using h
            subst this; decide
    have hne : (⟨xs ++ '県' :: (ys ++ ['市'])⟩ : String) ≠ "" := by
      intro h
      have := congrArg String.data h
      simp at this
    have hstrip : pyStrip ⟨xs ++ '県' :: (ys ++ ['市'])⟩ = ⟨xs ++ '県' :: (ys ++ ['市'])⟩ := by
      simp only [pyStrip, pyStripList_noop _ hall]
    have htailken : ∀ c ∈ ys ++ ['市'], isKen c = false := by
      intro c hc
      rcases List.mem_append.mp hc with h | h
      · exact (hys c h).1
      · have : c = '市' := by simpa using h
        subst this; decide
    have hpref : findPrefecture (xs ++ '県' :: (ys ++ ['市'])) = some (xs ++ ['県']) := by
      rw [hxsdef, List.cons_append, findPrefecture,
        show a :: (xs' ++ '県' :: (ys ++ ['市'])) = (a :: xs') ++ '県' :: (ys ++ ['市']) by simp,
        matchPrefectureAt_xKen (a :: xs') (ys ++ ['市']) hlen hne3 hxsn htailken]
    have hcity : findCity (xs ++ '県' :: (ys ++ ['市'])) = some (ys ++ ['市']) := by
      rw [findCity_skip xs _ hxsk, findCity]
      have hrun : (ys ++ ['市']).takeWhile (fun x => !isRegionSep x) = ys ++ ['市'] := by
        refine takeWhile_eq_self_of_all _ _ ?_
        intro c hc
        rcases List.mem_append.mp hc with h | h
        · simp [(hys c h).2]
        · have : c = '市' := by simpa using h
          subst this; decide
      have hlast : lastCitySuffixTake (ys ++ ['市']) = some (ys ++ ['市']) := by
        unfold lastCitySuffixTake
        rw [List.reverse_append]
        simp only [List.reverse_cons, List.reverse_nil, List.nil_append, List.singleton_append,
          List.dropWhile_cons]
        rw [show (!isCitySuffix '市') = false by decide]
        simp
      simp only [matchCityAt, show isKen '県' = true by decide, if_true, hrun, hlast]
    have hcityne : (⟨ys ++ ['市']⟩ : String) ≠ "" := by
      intro h
      have := congrArg String.data h
      simp at this
    have hcitypref : (⟨ys ++ ['市']⟩ : String) ≠ (⟨xs ++ ['県']⟩ : String) := by
      intro h
      have hd := congrArg String.data h
      simp only at hd
      have h1 : (ys ++ ['市']).getLast? = (xs ++ ['県']).getLast? := by rw [hd]
      rw [List.getLast?_concat, List.getLast?_concat] at h1
      simp at h1
    unfold extract_region_parts
    rw [if_neg hne]
    simp only [hstrip, hpref, hcity]
    have hallcity : ∀ c ∈ ys ++ ['市'], isPySpace c = false := by
      intro c hc
      rcases List.mem_append.mp hc with h | h
      · have := (hys c h).2
        simp only [isRegionSep, Bool.or_eq_false_iff] at this
        exact this.2
      · have hceq : c = '市' := by simpa using h
        subst hceq; decide
    have hstripcity : pyStrip ⟨ys ++ ['市']⟩ = ⟨ys ++ ['市']⟩ := by
      simp only [pyStrip, pyStripList_noop (ys ++ ['市']) hallcity]
    rw [hstripcity]
    rw [if_pos (by simp [hcityne, hcitypref])]
    rfl
  · intro xs hlen hne3 hxs
    rcases xs with - | ⟨a, xs'⟩
    · simp at hlen
    set xs := a :: xs' with hxsdef
    have hxsn : ∀ c ∈ xs, c ≠ '\n' := fun c hc => (hxs c hc).1
    have hxsk : ∀ c ∈ xs, isKen c = false := fun c hc => (hxs c hc).2.1
    have hall : ∀ c ∈ xs ++ ['県'], isPySpace c = false := by
      intro c hc
      rcases List.mem_append.mp hc with h | h
      · have := (hxs c h).2.2
        simp only [isRegionSep, Bool.or_eq_false_iff] at this
        exact this.2
      · have : c = '県' := by simpa using h
        subst this; decide
    have hne : (⟨xs ++ ['県']⟩ : String) ≠ "" := by
      intro h
      have := congrArg String.data h
      simp at this
    have hstrip : pyStrip ⟨xs ++ ['県']⟩ = ⟨xs ++ ['県']⟩ := by
      simp only [pyStrip, pyStripList_noop _ hall]
    have hpref : findPrefecture (xs ++ ['県']) = some (xs ++ ['県']) := by
      rw [hxsdef, List.cons_append, findPrefecture,
        show a :: (xs' ++ ['県']) = (a :: xs') ++ '県' :: [] by simp,
        matchPrefectureAt_xKen (a :: xs') [] hlen hne3 hxsn (by simp)]
    have hcity : findCity (xs ++ ['県']) = none := by
      rw [show xs ++ ['県'] = xs ++ '県' :: [] by simp, findCity_skip xs _ hxsk, findCity]
      simp [matchCityAt, isKen, lastCitySuffixTake, findCity]
    unfold extract_region_parts
    rw [if_neg hne]
    simp only [hstrip, hcity, hpref]
  · intro loc hp hc
    unfold extract_region_parts
    by_cases h0 : loc = ""
    · simp [h0]
    · rw [if_neg h0]
      simp only [hp, hc]

/-- Witness for C3 at concrete inputs. -/
theorem c3_witness :
    extract_region_parts "大分県日田市" = ["大分県", "日田市"]
    ∧ extract_region_parts "大分県" = ["大分県"]
    ∧ extract_region_parts "東京スカイツリー" = [] := by
  refine ⟨?_, ?_, ?_⟩
  · exact c3_region_splitter.2.1 ['大', '分'] ['日', '田']
      (by decide) (by decide) (by decide) (by decide)
  · exact c3_region_splitter.2.2.1 ['大', '分'] (by decide) (by decide) (by decide)
  · exact c3_region_splitter.2.2.2 "東京スカイツリー" (by decide) (by decide)

/-- Updating one key leaves the others untouched. -/
theorem dlook_dset_ne (d : Dict) (k k' : String) (v : PyVal) (h : k' ≠ k) :
    dlook (dset d k v) k' = dlook d k' := by
  induction d with
  | nil => simp [dset, dlook, Ne.symm h]
  | cons kv d ih =>
    obtain ⟨k2, v2⟩ := kv
    by_cases hk2 : k2 = k
    · subst hk2
      simp [dset, dlook, Ne.symm h]
    · simp only [dset, hk2, if_false, dlook]
      by_cases hk2' : k2 = k'
      · simp [hk2']
      · simp [hk2', ih]

/-- Updating a key stores the new value. -/
theorem dlook_dset_eq (d : Dict) (k : String) (v : PyVal) :
    dlook (dset d k v) k = some v := by
  induction d with
  | nil => simp [dset, dlook]
  | cons kv d ih =>
    obtain ⟨k2, v2⟩ := kv
    by_cases hk2 : k2 = k
    · subst hk2
      simp [dset, dlook]
    · simp [dset, hk2, dlook, ih]

/-- The raw-map merge loop does not touch keys outside the map. -/
theorem mergeRawInto_lookup_notin (d m : Dict) (k : String)
    (h : k ∉ m.map Prod.fst) : dlook (mergeRawInto d m) k = dlook d k := by
  induction m generalizing d with
  | nil => rfl
  | cons kv m' ih =>
    obtain ⟨k2, v2⟩ := kv
    have hk2 : k2 ≠ k := by
      intro he
      exact h (by simp [he])
    rw [mergeRawInto]
    rw [ih _ (by intro hm; exact h (by simp [hm]))]
    split
    · exact dlook_dset_ne d k2 k v2 (Ne.symm hk2)
    · rfl

/-- The raw-map merge loop copies the value of a NULL-column key. -/
theorem mergeRawInto_lookup (m : Dict) (d : Dict) (k : String) (v : PyVal)
    (hnodup : (m.map Prod.fst).Nodup) (hmem : dlook m k = some v)
    (hnone : isNoneAt d k = true) (hk1 : k ≠ "id") (hk2 : k ≠ "created_at") :
    dlook (mergeRawInto d m) k = some v := by
  induction m generalizing d with
  | nil => simp [dlook] at hmem
  | cons kv m' ih =>
    obtain ⟨k2, v2⟩ := kv
    by_cases hk2k : k2 = k
    · subst hk2k
      have hv : v2 = v := by
        simp only [dlook, if_pos rfl] at hmem
        exact Option.some.inj hmem
      subst hv
      rw [mergeRawInto, if_pos ⟨Ne.symm (by intro h; exact hk1 h.symm), Ne.symm (by intro h; exact hk2 h.symm), hnone⟩]
      have hnotin : k2 ∉ m'.map Prod.fst := by
        simp only [List.map_cons] at hnodup
        exact (List.nodup_cons.mp hnodup).1
      rw [mergeRawInto_lookup_notin _ _ _ hnotin]
      exact dlook_dset_eq d k2 v2
    · have hmem' : dlook m' k = some v := by
        simpa [dlook, hk2k] using hmem
      have hnodup' : (m'.map Prod.fst).Nodup := by
        simp only [List.map_cons] at hnodup
        exact (List.nodup_cons.mp hnodup).2
      rw [mergeRawInto]
      split
      · exact ih (dset d k2 v2) hnodup' hmem'
          (by rw [isNoneAt] at hnone ⊢; rw [dlook_dset_ne d k2 k v2 (Ne.symm hk2k)]; exact hnone)
      · exact ih d hnodup' hmem' hnone

/-- Retrieval by a fresh id finds exactly the appended row. -/
theorem get_project_by_id_append (rows : List Dict) (row : Dict) (pk : Nat)
    (hfresh : ∀ r ∈ rows, dlook r "id" ≠ some (.vInt (pk : Int)))
    (hrow : dlook row "id" = some (.vInt (pk : Int))) :
    get_project_by_id (rows ++ [row]) pk = some (row_to_dict row) := by
  unfold get_project_by_id
  have hfind : (rows ++ [row]).find? (fun r =>
      match dlook r "id" with
      | some (.vInt n) => n == (pk : Int)
      | _ => false) = some row := by
    induction rows with
    | nil =>
      simp only [List.nil_append, List.find?]
      rw [hrow]
      simp
    | cons r rest ih =>
      have hr : (fun r => match dlook r "id" with
          | some (.vInt n) => n == (pk : Int)
          | _ => false) r = false := by
        show (match dlook r "id" with
          | some (.vInt n) => n == (pk : Int)
          | _ => false) = false
        cases hl : dlook r "id" with
        | none => rfl
        | some v =>
          cases v with
          | vInt n =>
            simp only [beq_eq_false_iff_ne, ne_eq]
            intro he
            exact hfresh r (by simp) (by rw [hl, he])
          | vNone => rfl
          | vBool b => rfl
          | vStr s => rfl
          | vList xs => rfl
          | vDict m => rfl
      simp only [List.cons_append, List.find?, hr]
      exact ih (fun r hr => hfresh r (by simp [hr]))
  rw [hfind]
  rfl

/-- Claim C5: a `fixed`-mode save stores NULL in `raw_json`, so retrieval
never returns a populated raw map; a `json`-mode save stores only the raw
map, and retrieval reconstructs the flattened fields (here
`project_name` / `client_name`) from it, since the flattened columns are
NULL. -/
theorem c5_relational_mode_storage (rows : List Dict) (data : Dict)
    (ptype created k : String) (v : PyVal)
    (hfresh : ∀ r ∈ rows, dlook r "id" ≠ some (.vInt (rows.length + 1 : Nat)))
    (hk : k = "project_name" ∨ k = "client_name")
    (hkv : dlook data k = some v)
    (hnodup : (data.map Prod.fst).Nodup) :
    (∃ d, get_project_by_id (save_project rows data ptype "fixed" created).2
        (save_project rows data ptype "fixed" created).1 = some d
      ∧ dlook d "raw_json" = some .vNone)
    ∧ (∃ d, get_project_by_id (save_project rows data ptype "json" created).2
        (save_project rows data ptype "json" created).1 = some d
      ∧ dlook d k = some v) := by
  constructor
  · set row := projectsRowFull (rows.length + 1) data ptype created .vNone with hrowdef
    have hrow : dlook row "id" = some (.vInt (rows.length + 1 : Nat)) := by
      simp [hrowdef, projectsRowFull, dlook]
    have hsave : (save_project rows data ptype "fixed" created).2 = rows ++ [row] := by
      simp [save_project]
    have hpk : (save_project rows data ptype "fixed" created).1 = rows.length + 1 := by
      simp [save_project]
    have hraw : dlook row "raw_json" = some .vNone := by
      simp [hrowdef, projectsRowFull, dlook]
    have hdict : row_to_dict row = row := by
      rw [row_to_dict, hraw]
    refine ⟨row_to_dict row, ?_, ?_⟩
    · rw [hsave, hpk]
      exact get_project_by_id_append rows row (rows.length + 1) hfresh hrow
    · rw [hdict]
      exact hraw
  · set row := projectsRowJson (rows.length + 1) data ptype created with hrowdef
    have hrow : dlook row "id" = some (.vInt (rows.length + 1 : Nat)) := by
      simp [hrowdef, projectsRowJson, dlook]
    have hsave : (save_project rows data ptype "json" created).2 = rows ++ [row] := by
      simp [save_project]
    have hpk : (save_project rows data ptype "json" created).1 = rows.length + 1 := by
      simp [save_project]
    have hraw : dlook row "raw_json" = some (.vDict data) := by
      simp [hrowdef, projectsRowJson, dlook]
    have hpn : dlook row "project_name" = some .vNone := by
      simp [hrowdef, projectsRowJson, dlook]
    have hkcol : dlook row k = some .vNone := by
      rcases hk with rfl | rfl <;> simp [hrowdef, projectsRowJson, dlook]
    have hkraw : k ≠ "raw_json" := by
      rcases hk with rfl | rfl <;> decide
    have hdata_ne : data.isEmpty = false := by
      cases data with
      | nil => simp [dlook] at hkv
      | cons kv m => rfl
    have hdict : row_to_dict row = mergeRawInto (dset row "raw_json" (.vDict data)) data := by
      rw [row_to_dict, hraw]
      have hgate : pyTruthy ((dlook (dset row "raw_json" (.vDict data)) "project_name").getD .vNone)
          = false := by
        rw [dlook_dset_ne row "raw_json" "project_name" _ (by decide), hpn]
        rfl
      simp [hgate, hdata_ne]
    refine ⟨row_to_dict row, ?_, ?_⟩
    · rw [hsave, hpk]
      exact get_project_by_id_append rows row (rows.length + 1) hfresh hrow
    · rw [hdict]
      refine mergeRawInto_lookup data _ k v hnodup hkv ?_ ?_ ?_
      · rw [isNoneAt, dlook_dset_ne row "raw_json" k _ hkraw, hkcol]
      · rcases hk with rfl | rfl <;> decide
      · rcases hk with rfl | rfl <;> decide

/-- Witness for C5 at a concrete input. -/
theorem c5_witness :
    (∃ d, get_project_by_id
        (save_project [] [("project_name", PyVal.vStr "舗装工事")] "past" "fixed" "t").2
        (save_project [] [("project_name", PyVal.vStr "舗装工事")] "past" "fixed" "t").1
        = some d
      ∧ dlook d "raw_json" = some .vNone)
    ∧ (∃ d, get_project_by_id
        (save_project [] [("project_name", PyVal.vStr "舗装工事")] "past" "json" "t").2
        (save_project [] [("project_name", PyVal.vStr "舗装工事")] "past" "json" "t").1
        = some d
      ∧ dlook d "project_name" = some (PyVal.vStr "舗装工事")) :=
  c5_relational_mode_storage [] [("project_name", PyVal.vStr "舗装工事")] "past" "t"
    "project_name" (PyVal.vStr "舗装工事") (by simp) (Or.inl rfl) (by simp [dlook]) (by simp)

/-- The dict merge is transparent for keys the right side does not bind. -/
theorem dlook_dmerge_notin (a b : Dict) (k : String) (h : k ∉ b.map Prod.fst) :
    dlook (dmerge a b) k = dlook a k := by
  induction b generalizing a with
  | nil => rfl
  | cons kv b' ih =>
    obtain ⟨k2, v2⟩ := kv
    have hk2 : k2 ≠ k := fun he => h (by simp [he])
    rw [dmerge, ih _ (fun hm => h (by simp [hm]))]
    exact dlook_dset_ne a k2 k v2 (Ne.symm hk2)

/-- The dict merge looks right first, then left (for a duplicate-free
right side, the Python dict situation). -/
theorem dlook_dmerge (b a : Dict) (k : String) (hb : (b.map Prod.fst).Nodup) :
    dlook (dmerge a b) k
      = match dlook b k with
        | some w => some w
        | none => dlook a k := by
  induction b generalizing a with
  | nil => rfl
  | cons kv b' ih =>
    obtain ⟨k2, v2⟩ := kv
    simp only [List.map_cons] at hb
    have hb' := List.nodup_cons.mp hb
    by_cases hk2 : k2 = k
    · subst hk2
      have hnotb' : k2 ∉ b'.map Prod.fst := hb'.1
      rw [dmerge, dlook_dmerge_notin _ _ _ hnotb', dlook_dset_eq]
      simp [dlook]
    · rw [dmerge, ih _ hb'.2]
      simp only [dlook, hk2, if_false]
      cases dlook b' k with
      | some w => rfl
      | none => exact dlook_dset_ne a k2 k v2 (Ne.symm hk2)

/-- A matched id makes `updateSourceById` replace exactly the first
matching record with the merged-policy record. -/
theorem updateSourceById_found (sid name ftype desc : String) (schemaFields : List PyVal)
    (parser_config : PyVal) (dbSelArg : Option Dict) (sources : List DataSource)
    (ds : DataSource) (hfind : sources.find? (fun d => d.id == sid) = some ds) :
    ∃ sources',
      updateSourceById sid name ftype desc schemaFields parser_config dbSelArg sources
        = some sources'
      ∧ sources'.find? (fun d => d.id == sid)
        = some { id := sid, name := name, file_type := ftype, description := desc,
                 schemaFields := schemaFields, parserCfg := parser_config,
                 dbSelection := some (dmerge
                   (dmerge DEFAULT_DB_SELECTION (ds.dbSelection.getD []))
                   (dbSelArg.getD [])) } := by
  induction sources with
  | nil => simp [List.find?] at hfind
  | cons d rest ih =>
    by_cases hd : d.id = sid
    · have hds : ds = d := by
        rw [List.find?_cons_of_pos _ (by simpa using hd)] at hfind
        exact (Option.some.inj hfind).symm
      subst hds
      refine ⟨_, by rw [updateSourceById, if_pos hd], ?_⟩
      rw [List.find?_cons_of_pos _ (by simp)]
    · rw [List.find?_cons_of_neg _ (by simpa using hd)] at hfind
      obtain ⟨sources', hupd, hfind'⟩ := ih hfind
      refine ⟨d :: sources', ?_, ?_⟩
      · rw [updateSourceById, if_neg hd, hupd]
        rfl
      · rw [List.find?_cons_of_neg _ (by simpa using hd)]
        exact hfind'

/-- An unmatched id makes `updateSourceById` fail. -/
theorem updateSourceById_none (sid name ftype desc : String) (schemaFields : List PyVal)
    (parser_config : PyVal) (dbSelArg : Option Dict) (sources : List DataSource)
    (hfind : sources.find? (fun d => d.id == sid) = none) :
    updateSourceById sid name ftype desc schemaFields parser_config dbSelArg sources
      = none := by
  induction sources with
  | nil => rfl
  | cons d rest ih =>
    have hd : d.id ≠ sid := by
      intro he
      rw [List.find?_cons_of_pos _ (by simpa using he)] at hfind
      cases hfind
    rw [List.find?_cons_of_neg _ (by simpa using hd)] at hfind
    rw [updateSourceById, if_neg hd, ih hfind]
    rfl

/-- Claim C9: saving an existing data source by id stores, as its policy,
the built-in default merged with the previously stored policy merged with
the supplied overrides, in that precedence order — so every
previously-set field not explicitly overridden survives. -/
theorem c9_policy_merge_semantics (sources : List DataSource) (sid name ftype desc : String)
    (schemaFields : List PyVal) (parserArg : Option PyVal) (dbSelArg : Option Dict)
    (globalParser : PyVal) (newId : String) (ds : DataSource)
    (hsid : sid ≠ "")
    (hfind : sources.find? (fun d => d.id == sid) = some ds)
    (hnodup1 : ((ds.dbSelection.getD []).map Prod.fst).Nodup)
    (hnodup2 : ((dbSelArg.getD []).map Prod.fst).Nodup) :
    (save_data_source sources (some sid) name ftype desc schemaFields parserArg dbSelArg
        globalParser newId).1 = sid
    ∧ ∃ stored,
        (save_data_source sources (some sid) name ftype desc schemaFields parserArg dbSelArg
          globalParser newId).2.find? (fun d => d.id == sid) = some stored
        ∧ ∀ key, dlook (stored.dbSelection.getD []) key
            = match dlook (dbSelArg.getD []) key with
              | some w => some w
              | none =>
                match dlook (ds.dbSelection.getD []) key with
                | some w => some w
                | none => dlook DEFAULT_DB_SELECTION key := by
  obtain ⟨sources', hupd, hfind'⟩ := updateSourceById_found sid name ftype desc schemaFields
    (pyOr (parserArg.getD .vNone) globalParser) dbSelArg sources ds hfind
  have hresult : save_data_source sources (some sid) name ftype desc schemaFields parserArg
      dbSelArg globalParser newId = (sid, sources') := by
    simp only [save_data_source, hupd]
    try rw [if_pos hsid]
  refine ⟨by rw [hresult], ?_⟩
  rw [hresult]
  refine ⟨_, hfind', ?_⟩
  intro key
  simp only [Option.getD_some]
  rw [dlook_dmerge _ _ _ hnodup2, dlook_dmerge _ _ _ hnodup1]

/-- Claim C10: any call that reaches the create branch (no id, empty id,
or an id matching no stored source) appends a record whose policy is
exactly a copy of the built-in default; the `db_selection` argument is
not consulted on this path. -/
theorem c10_create_path_default_policy (sources : List DataSource)
    (source_id : Option String) (name ftype desc : String) (schemaFields : List PyVal)
    (parserArg : Option PyVal) (dbSelArg : Option Dict) (globalParser : PyVal)
    (newId : String)
    (hcreate : source_id = none ∨ source_id = some ""
      ∨ ∃ sid, source_id = some sid ∧ sources.find? (fun d => d.id == sid) = none) :
    save_data_source sources source_id name ftype desc schemaFields parserArg dbSelArg
        globalParser newId
      = (newId, sources ++ [newSource newId name ftype desc schemaFields
          (pyOr (parserArg.getD .vNone) globalParser)])
    ∧ (newSource newId name ftype desc schemaFields
        (pyOr (parserArg.getD .vNone) globalParser)).dbSelection
      = some DEFAULT_DB_SELECTION := by
  refine ⟨?_, rfl⟩
  rcases hcreate with rfl | rfl | ⟨sid, rfl, hnone⟩
  · rfl
  · rfl
  · have hn := updateSourceById_none sid name ftype desc schemaFields
      (pyOr (parserArg.getD .vNone) globalParser) dbSelArg sources hnone
    by_cases hsid : sid = ""
    · subst hsid
      simp [save_data_source, newSource]
    · simp only [save_data_source, hn]
      rw [if_pos hsid]

/-- Witness for C9 at a concrete input. -/
theorem c9_witness :
    ∃ stored,
      (save_data_source
        [DataSource.mk "abc" "n" "pdf" "d" [] PyVal.vNone (some [("neo4j", PyVal.vBool true)])]
        (some "abc") "n2" "pdf" "d2" [] none (some [("chroma", PyVal.vBool true)])
        PyVal.vNone "fresh12").2.find? (fun d => d.id == "abc") = some stored
      ∧ dlook (stored.dbSelection.getD []) "neo4j" = some (PyVal.vBool true)
      ∧ dlook (stored.dbSelection.getD []) "chroma" = some (PyVal.vBool true)
      ∧ dlook (stored.dbSelection.getD []) "sqlite" = some (PyVal.vBool true) := by
  obtain ⟨-, stored, hfind, hkey⟩ := c9_policy_merge_semantics
    [DataSource.mk "abc" "n" "pdf" "d" [] PyVal.vNone (some [("neo4j", PyVal.vBool true)])]
    "abc" "n2" "pdf" "d2" [] none (some [("chroma", PyVal.vBool true)]) PyVal.vNone "fresh12"
    (DataSource.mk "abc" "n" "pdf" "d" [] PyVal.vNone (some [("neo4j", PyVal.vBool true)]))
    (by decide) (by simp [List.find?]) (by simp) (by simp)
  exact ⟨stored, hfind, hkey "neo4j", hkey "chroma", hkey "sqlite"⟩

/-- Witness for C10 at a concrete input. -/
theorem c10_witness :
    save_data_source [] (some "nomatch") "n" "pdf" "d" [] none
        (some [("neo4j", PyVal.vBool true)]) PyVal.vNone "fresh34"
      = ("fresh34", [newSource "fresh34" "n" "pdf" "d" [] PyVal.vNone])
    ∧ (newSource "fresh34" "n" "pdf" "d" [] PyVal.vNone).dbSelection
      = some DEFAULT_DB_SELECTION :=
  c10_create_path_default_policy [] (some "nomatch") "n" "pdf" "d" [] none
    (some [("neo4j", PyVal.vBool true)]) PyVal.vNone "fresh34"
    (Or.inr (Or.inr ⟨"nomatch", rfl, rfl⟩))

/-- Claim C6: a linked-document upsert against a project identity with no
Project node in the graph returns `False` and leaves the graph exactly as
it was — the existence check precedes every write, and a driver failure
or a raise of the check itself also returns `False` with no writes. -/
theorem c6_linked_doc_requires_project (driverOk : Bool) (oracle : Nat → Bool)
    (parsed : Dict) (pid : Int) (g : Graph)
    (habsent : projectExists g pid = false) :
    save_design_doc_to_neo4j driverOk oracle parsed pid g = (false, g) := by
  unfold save_design_doc_to_neo4j
  by_cases hd : driverOk <;> by_cases ho : oracle 0 <;> simp [hd, ho, habsent]

/-- Witness for C6 at a concrete input: an empty graph. -/
theorem c6_witness :
    projectExists ⟨[], [], 0⟩ 1 = false
    ∧ save_design_doc_to_neo4j true (fun _ => false) [] 1 ⟨[], [], 0⟩
      = (false, ⟨[], [], 0⟩) :=
  ⟨rfl, c6_linked_doc_requires_project true (fun _ => false) [] 1 ⟨[], [], 0⟩ rfl⟩

/-- A successful statement run means no statement raised: the oracle was
false at every executed index and no Python-level raise was reached. -/
theorem execStmts_true_no_raise (oracle : Nat → Bool) (stmts : List GStmt) :
    ∀ (i : Nat) (g : Graph), (execStmts oracle stmts i g).1 = true →
      (∀ j < stmts.length, oracle (i + j) = false) ∧ ∀ s ∈ stmts, s.isSome := by
  induction stmts with
  | nil =>
    intro i g _
    exact ⟨fun j hj => absurd hj (by simp), fun s hs => absurd hs (by simp)⟩
  | cons s rest ih =>
    intro i g h
    cases s with
    | none => simp [execStmts] at h
    | some f =>
      rw [show execStmts oracle (some f :: rest) i g
          = if oracle i then (false, g) else execStmts oracle rest (i + 1) (f g) from rfl] at h
      by_cases ho : oracle i
      · rw [if_pos ho] at h
        simp at h
      · rw [if_neg ho] at h
        obtain ⟨hrest, hsome⟩ := ih (i + 1) (f g) h
        refine ⟨?_, ?_⟩
        · intro j hj
          cases j with
          | zero => simpa using (Bool.not_eq_true (oracle i)).mp ho
          | succ k =>
            have := hrest k (by simpa using hj)
            simpa [Nat.add_comm, Nat.add_left_comm] using this
        · intro s hs
          rcases List.mem_cons.mp hs with rfl | hs
          · rfl
          · exact hsome s hs

/-- Claim C7: the three graph operations return a boolean success flag
(they are total functions into `Bool × Graph`, never propagating an
exception); an unreachable graph store yields `False` with the graph
untouched, and a success can only be reported when the driver was
available and no statement raised. -/
theorem c7_graph_ops_soft_fail :
    (∀ (oracle : Nat → Bool) (project : Dict) (g : Graph),
      save_project_to_neo4j false oracle project g = (false, g))
    ∧ (∀ (oracle : Nat → Bool) (parsed : Dict) (pid : Int) (g : Graph),
      save_design_doc_to_neo4j false oracle parsed pid g = (false, g))
    ∧ (∀ (oracle : Nat → Bool) (pid : Int) (g : Graph),
      delete_project_from_neo4j false oracle pid g = (false, g))
    ∧ (∀ (driverOk : Bool) (oracle : Nat → Bool) (project : Dict) (g : Graph),
      (save_project_to_neo4j driverOk oracle project g).1 = true →
      driverOk = true
      ∧ ∃ n : Int, dlook project "id" = some (.vInt n) ∧ (n == 0) = false
        ∧ ∀ j < (projectStmts n (normalize_project_data project) project).length,
            oracle j = false)
    ∧ (∀ (driverOk : Bool) (oracle : Nat → Bool) (parsed : Dict) (pid : Int) (g : Graph),
      (save_design_doc_to_neo4j driverOk oracle parsed pid g).1 = true →
      driverOk = true ∧ oracle 0 = false ∧ projectExists g pid = true
        ∧ ∀ j < (designDocStmts pid parsed).length, oracle (1 + j) = false)
    ∧ (∀ (driverOk : Bool) (oracle : Nat → Bool) (pid : Int) (g : Graph),
      (delete_project_from_neo4j driverOk oracle pid g).1 = true →
      driverOk = true ∧ oracle 0 = false ∧ oracle 1 = false ∧ oracle 2 = false) := by
  refine ⟨fun _ _ _ => rfl, fun _ _ _ _ => rfl, fun _ _ _ => rfl, ?_, ?_, ?_⟩
  · intro driverOk oracle project g h
    cases driverOk with
    | false => simp [save_project_to_neo4j] at h
    | true =>
      refine ⟨rfl, ?_⟩
      rw [show save_project_to_neo4j true oracle project g
          = (match dlook project "id" with
            | some (.vInt n) =>
              if n == 0 then (false, g)
              else execStmts oracle (projectStmts n (normalize_project_data project) project) 0 g
            | _ => (false, g)) from rfl] at h
      split at h
      · rename_i n heq
        split at h
        · simp at h
        · rename_i hn
          refine ⟨n, heq, by simpa using hn, ?_⟩
          have := (execStmts_true_no_raise oracle _ 0 g h).1
          intro j hj
          simpa using this j hj
      · simp at h
  · intro driverOk oracle parsed pid g h
    cases driverOk with
    | false => simp [save_design_doc_to_neo4j] at h
    | true =>
      rw [show save_design_doc_to_neo4j true oracle parsed pid g
          = (if oracle 0 then (false, g)
            else if !projectExists g pid then (false, g)
            else execStmts oracle (designDocStmts pid parsed) 1 g) from rfl] at h
      by_cases ho : oracle 0
      · rw [if_pos ho] at h
        simp at h
      · rw [if_neg ho] at h
        by_cases hp : projectExists g pid
        · rw [if_neg (by simp [hp])] at h
          refine ⟨rfl, by simpa using ho, hp, ?_⟩
          exact (execStmts_true_no_raise oracle _ 1 g h).1
        · rw [if_pos (by simp [Bool.not_eq_true] at hp ⊢; exact hp)] at h
          simp at h
  · intro driverOk oracle pid g h
    cases driverOk with
    | false => simp [delete_project_from_neo4j] at h
    | true =>
      rw [show delete_project_from_neo4j true oracle pid g
          = execStmts oracle
            [some (stmtDeleteDocs pid), some (stmtDeleteProject pid), some stmtGcOrphans]
            0 g from rfl] at h
      have := (execStmts_true_no_raise oracle _ 0 g h).1
      exact ⟨rfl, by simpa using this 0 (by simp), by simpa using this 1 (by simp),
        by simpa using this 2 (by simp)⟩

/-- Witness for C7 at concrete inputs. -/
theorem c7_witness :
    save_project_to_neo4j false (fun _ => false) [] ⟨[], [], 0⟩ = (false, ⟨[], [], 0⟩)
    ∧ delete_project_from_neo4j false (fun _ => false) 1 ⟨[], [], 0⟩
      = (false, ⟨[], [], 0⟩) :=
  ⟨c7_graph_ops_soft_fail.1 (fun _ => false) [] ⟨[], [], 0⟩,
   c7_graph_ops_soft_fail.2.2.1 (fun _ => false) 1 ⟨[], [], 0⟩⟩
